import Mathlib

/-!
Verification development for the dbarts tree/partition/codec core
(`src/dbarts/node.cpp`, `src/dbarts/node.hpp`, `src/dbarts/tree.hpp`,
`src/dbarts/binaryIO.cpp`).

The C++ code is shallowly embedded: machine integers become `Nat`/`Int`
(with explicit 32-bit reductions where the source stores 32-bit words),
pointers become `Option` values, the shared observation-index buffer
becomes a `List Nat` that is threaded through the tree operations, and
fallible routines return `Option`/flagged results.  Doubles appear only
as opaque 64-bit bit patterns (`Nat`) in the codec, never as arithmetic.
-/

open List

/-- Predictor type tag, from `dbarts/types.hpp` usage in `node.cpp`
(`fit.data.variableTypes[v] == CATEGORICAL` / `!= ORDINAL`). -/
inductive VariableType where
  | ORDINAL : VariableType
  | CATEGORICAL : VariableType
deriving DecidableEq, Repr

/-- Split rule, from `node.hpp` lines 21-40.  The C struct stores
`int32_t variableIndex` and a 32-bit union shared by `int32_t splitIndex`
and `uint32_t categoryDirections`; we keep the raw 32-bit payload in
`splitBits` and expose both readings of it below. -/
structure Rule where
  variableIndex : Int
  splitBits : Nat
deriving DecidableEq, Repr

/-- The union member `splitIndex`, i.e. `splitBits` read as a two's
complement `int32_t`. -/
def Rule.splitIndex (r : Rule) : Int :=
  if r.splitBits % 4294967296 < 2147483648 then ((r.splitBits % 4294967296 : Nat) : Int)
  else ((r.splitBits % 4294967296 : Nat) : Int) - 4294967296

/-- The union member `categoryDirections`, i.e. `splitBits` read as a
`uint32_t` bitmask. -/
def Rule.categoryDirections (r : Rule) : Nat :=
  r.splitBits % 4294967296

/-- From `node.hpp` line 197:
`return ((1u << categoryId) & categoryDirections) != 0;`. -/
def Rule.categoryGoesRight (r : Rule) (categoryId : Nat) : Bool :=
  decide ((1 <<< categoryId) &&& r.categoryDirections ≠ 0)

/-- Model of the parts of `BARTFit` that `node.cpp` reads: the data
dimensions, the per-predictor type tags (`fit.data.variableTypes`), and
the transposed predictor scratch.  `x v i` is the `xint_t` predictor
value of observation `i` for variable `v`; it models both
`fit.sharedScratch.x[v * numObservations + i]` (the column layout used by
the partitioner) and `xt[i * numPredictors + v]` (the row layout read by
`Rule::goesRight` and `Node::findBottomNode`), which alias the same
values. `xint_t` is an unsigned 16-bit integer, so values are `Nat`s. -/
structure BARTFit where
  numObservations : Nat
  numPredictors : Nat
  variableTypes : Nat → VariableType
  x : Nat → Nat → Nat

/-- From `node.cpp` lines 37-49 (`Rule::goesRight`): a categorical
variable tests membership of the observed category id in the bitmask, an
ordinal variable tests `xt[variableIndex] > splitIndex` (the `xint_t`
value is promoted to a signed integer for the comparison against the
`int32_t` split index).  `xt` is the predictor row of one observation. -/
def Rule.goesRight (r : Rule) (fit : BARTFit) (xt : Nat → Nat) : Bool :=
  if fit.variableTypes r.variableIndex.toNat = VariableType.CATEGORICAL then
    r.categoryGoesRight (xt r.variableIndex.toNat)
  else
    decide ((xt r.variableIndex.toNat : Int) > r.splitIndex)

/-- In-place exchange of positions `i` and `j` of the index buffer, as in
the partition loop body `temp = indices[rh]; indices[rh] = indices[lh];
indices[lh] = temp;`. -/
def swapL (a : List Nat) (i j : Nat) : List Nat :=
  (a.set i (a.getD j 0)).set j (a.getD i 0)

/-- One inner scan of the two-pointer partition:
`while (x[indices[lh]] <= cut && lh < rh) ++lh;`.
The fuel argument is exactly `rh - lh`, so fuel `0` coincides with the
loop guard `lh < rh` being false and the recursion is structural. -/
def scanLGo (xv : Nat → Int) (cut : Int) (a : List Nat) : Nat → Nat → Nat
  | 0, lh => lh
  | fuel + 1, lh => if xv (a.getD lh 0) ≤ cut then scanLGo xv cut a fuel (lh + 1) else lh

/-- The left scan `while (x[indices[lh]] <= cut && lh < rh) ++lh;`
starting at `lh` with right sentinel `rh`. -/
def scanL (xv : Nat → Int) (cut : Int) (a : List Nat) (lh rh : Nat) : Nat :=
  scanLGo xv cut a (rh - lh) lh

/-- One inner scan of `while (x[indices[rh]] > cut && lh < rh) --rh;`,
with fuel exactly `rh - lh` (fuel `0` iff the guard `lh < rh` fails). -/
def scanRGo (xv : Nat → Int) (cut : Int) (a : List Nat) : Nat → Nat → Nat
  | 0, rh => rh
  | fuel + 1, rh => if xv (a.getD rh 0) > cut then scanRGo xv cut a fuel (rh - 1) else rh

/-- The right scan `while (x[indices[rh]] > cut && lh < rh) --rh;`. -/
def scanR (xv : Nat → Int) (cut : Int) (a : List Nat) (lh rh : Nat) : Nat :=
  scanRGo xv cut a (rh - lh) rh

/-- The outer loop of the scalar two-pointer partition: scan from both
ends, swap the out-of-place pair, step both pointers inward, and stop
(returning the buffer and the final `lh`) once the pointers meet.  The
fuel starts at `rh - lh` and bounds the number of iterations; because
every iteration shrinks `rh - lh` by at least 2 while spending one unit
of fuel, fuel can only reach `0` once `lh ≥ rh`, where returning
`(a, lh)` is exactly the loop's exit behaviour. -/
def hoareGo (xv : Nat → Int) (cut : Int) : Nat → List Nat → Nat → Nat → List Nat × Nat
  | 0, a, lh, _ => (a, lh)
  | fuel + 1, a, lh, rh =>
    let lh1 := scanL xv cut a lh rh
    let rh1 := scanR xv cut a lh1 rh
    if lh1 < rh1 then hoareGo xv cut fuel (swapL a lh1 rh1) (lh1 + 1) (rh1 - 1)
    else (a, lh1)

/-- Modelled from the spec: `misc_partitionIndices` lives in
`misc/partition.c`, which is not under `src/`; only its call sites are.
Spec section 4.3 describes it as a scalar two-pointer (Hoare-style)
in-place partition of an existing index permutation, and `node.cpp`
retains the exact scalar reference in comments (lines 578-592):
two inward scans, swap, and finally
`lengthOfLeft = x[indices[lh]] <= rule.splitIndex ? lh + 1 : lh;`
with an early `if (length == 0) return 0;`.  `xv i` is the predictor
value of observation `i`; the result is the pair (count on the left,
reordered buffer). -/
def misc_partitionIndices (xv : Nat → Int) (cut : Int) (indices : List Nat) : Nat × List Nat :=
  if indices.length = 0 then (0, indices)
  else
    let r := hoareGo xv cut (indices.length - 1) indices 0 (indices.length - 1)
    (if xv (r.1.getD r.2 0) ≤ cut then r.2 + 1 else r.2, r.1)

/-- Modelled from the spec: `misc_partitionRange` lives in
`misc/partition.c`, not under `src/`.  Per spec section 4.3 ("range"
mode) and the commented scalar reference in `node.cpp` lines 427-498, it
first rewrites the buffer to `0, 1, ..., length-1` and then partitions by
the predictor value at each position, which is the same as running the
index-mode partition on `[0..length)`; the incoming contents of the
buffer are ignored. -/
def misc_partitionRange (xv : Nat → Int) (cut : Int) (indices : List Nat) : Nat × List Nat :=
  misc_partitionIndices xv cut (List.range indices.length)

/-- The predictor column the partition wrappers hand to `misc_partition*`:
`fit.sharedScratch.x + rule.variableIndex * fit.data.numObservations`
(`node.cpp` lines 425, 518). -/
def xColumn (fit : BARTFit) (rule : Rule) : Nat → Int :=
  fun i => ((fit.x rule.variableIndex.toNat i : Nat) : Int)

/-- From `node.cpp` lines 424-426: `partitionRange` forwards the column
for the rule's variable and `rule.splitIndex` to `misc_partitionRange`. -/
def partitionRange (fit : BARTFit) (rule : Rule) (indices : List Nat) : Nat × List Nat :=
  misc_partitionRange (xColumn fit rule) rule.splitIndex indices

/-- From `node.cpp` lines 517-519: `partitionIndices` forwards the column
and `rule.splitIndex` to `misc_partitionIndices`. -/
def partitionIndices (fit : BARTFit) (rule : Rule) (indices : List Nat) : Nat × List Nat :=
  misc_partitionIndices (xColumn fit rule) rule.splitIndex indices

/-- Tree vertex, from `node.hpp` lines 63-78 and the constructors in
`node.cpp`.  `leftChild == NULL` discriminates leaves, so the type is a
sum: a leaf holds no rule, an inner node holds the `Rule` and two owned
children.  Each node carries its `variablesAvailableForSplit` bitset and
its view of the shared observation-index buffer, which we represent as
the pair (offset of `observationIndices` into the tree's buffer,
`numObservations`); the null slice of a freshly created or cleared child
(`observationIndices == NULL, numObservations == 0`) is represented as
`(0, 0)`.  Leaf statistics (`average`, `numEffectiveObservations`) are
IEEE doubles and are not modelled. -/
inductive Node where
  | leaf (sl : Nat × Nat) (vars : List Bool) : Node
  | branch (sl : Nat × Nat) (vars : List Bool) (rule : Rule) (l r : Node) : Node
deriving DecidableEq, Repr

/-- The node's slice of the shared index buffer: (start offset, length). -/
def Node.slice : Node → Nat × Nat
  | .leaf sl _ => sl
  | .branch sl _ _ _ _ => sl

/-- The node's `variablesAvailableForSplit` bitset. -/
def Node.variablesAvailableForSplit : Node → List Bool
  | .leaf _ v => v
  | .branch _ v _ _ _ => v

/-- From `node.hpp` line 174: `isBottom()` is `leftChild == NULL`. -/
def Node.isBottom : Node → Bool
  | .leaf _ _ => true
  | .branch _ _ _ _ _ => false

/-- From `node.hpp` line 175: `childrenAreBottom()` is `leftChild != NULL
&& leftChild->leftChild == NULL && p.rightChild->leftChild == NULL`. -/
def Node.childrenAreBottom : Node → Bool
  | .leaf _ _ => false
  | .branch _ _ _ l r => l.isBottom && r.isBottom

/-- From `node.cpp` lines 216-223 (`Node::getNumBottomNodes`). -/
def Node.getNumBottomNodes : Node → Nat
  | .leaf _ _ => 1
  | .branch _ _ _ l r => l.getNumBottomNodes + r.getNumBottomNodes

/-- From `node.cpp` lines 225-230 (`Node::getNumNotBottomNodes`). -/
def Node.getNumNotBottomNodes : Node → Nat
  | .leaf _ _ => 0
  | .branch _ _ _ l r => l.getNumNotBottomNodes + r.getNumNotBottomNodes + 1

/-- From `node.cpp` lines 232-237 (`Node::getNumNoGrandNodes`). -/
def Node.getNumNoGrandNodes : Node → Nat
  | .leaf _ _ => 0
  | .branch _ _ _ l r =>
    if l.isBottom && r.isBottom then 1
    else l.getNumNoGrandNodes + r.getNumNoGrandNodes

/-- From `node.cpp` lines 239-246 (`Node::getNumSwappableNodes`). -/
def Node.getNumSwappableNodes : Node → Nat
  | .leaf _ _ => 0
  | .branch _ _ _ l r =>
    if l.isBottom && r.isBottom then 0
    else if (l.isBottom || l.childrenAreBottom) && (r.isBottom || r.childrenAreBottom) then 1
    else l.getNumSwappableNodes + r.getNumSwappableNodes + 1

/-- From `node.cpp` lines 253-262 (`fillBottomVector`): depth-first,
left before right, appending to the result vector. -/
def fillBottomVector : Node → List Node
  | .leaf sl v => [.leaf sl v]
  | .branch _ _ _ l r => fillBottomVector l ++ fillBottomVector r

/-- From `node.cpp` lines 287-297 (`fillNoGrandVector`). -/
def fillNoGrandVector : Node → List Node
  | .leaf _ _ => []
  | .branch sl v rule l r =>
    if l.isBottom && r.isBottom then [.branch sl v rule l r]
    else fillNoGrandVector l ++ fillNoGrandVector r

/-- From `node.cpp` lines 299-311 (`fillNotBottomVector`): a node whose
children are both leaves is pushed and the recursion stops; otherwise
both subtrees are filled and the node itself is pushed afterwards. -/
def fillNotBottomVector : Node → List Node
  | .leaf _ _ => []
  | .branch sl v rule l r =>
    if l.isBottom && r.isBottom then [.branch sl v rule l r]
    else fillNotBottomVector l ++ fillNotBottomVector r ++ [.branch sl v rule l r]

/-- From `node.cpp` lines 313-326 (`fillSwappableVector`). -/
def fillSwappableVector : Node → List Node
  | .leaf _ _ => []
  | .branch sl v rule l r =>
    if l.isBottom && r.isBottom then []
    else if (l.isBottom || l.childrenAreBottom) && (r.isBottom || r.childrenAreBottom) then
      [.branch sl v rule l r]
    else fillSwappableVector l ++ fillSwappableVector r ++ [.branch sl v rule l r]

/-- From `node.cpp` lines 329-334 (`Node::getBottomVector`). -/
def Node.getBottomVector (t : Node) : List Node := fillBottomVector t

/-- From `node.cpp` lines 350-355 (`Node::getNoGrandVector`). -/
def Node.getNoGrandVector (t : Node) : List Node := fillNoGrandVector t

/-- From `node.cpp` lines 357-362 (`Node::getNotBottomVector`). -/
def Node.getNotBottomVector (t : Node) : List Node := fillNotBottomVector t

/-- From `node.cpp` lines 364-369 (`Node::getSwappableVector`). -/
def Node.getSwappableVector (t : Node) : List Node := fillSwappableVector t

/-- From `node.cpp` lines 371-378 (`Node::findBottomNode`): descend to
the right child exactly when `xt[p.rule.variableIndex] > p.rule.splitIndex`
(the source tests this comparison directly, for every variable type).
The returned descent path (`false` = left, `true` = right) identifies the
leaf `Node*` the source returns. -/
def Node.findBottomNode (t : Node) (fit : BARTFit) (xt : Nat → Nat) : List Bool :=
  match t with
  | .leaf _ _ => []
  | .branch _ _ rule l r =>
    if ((xt rule.variableIndex.toNat : Int) > rule.splitIndex) then
      true :: r.findBottomNode fit xt
    else
      false :: l.findBottomNode fit xt

/-- The descent described by the claim for C7, stated in the claim's own
words for comparison with `Node.findBottomNode`: at each inner node go
right exactly when `Rule.goesRight` holds of the row. -/
def goesRightDescent (fit : BARTFit) (t : Node) (xt : Nat → Nat) : List Bool :=
  match t with
  | .leaf _ _ => []
  | .branch _ _ rule l r =>
    if rule.goesRight fit xt then true :: goesRightDescent fit r xt
    else false :: goesRightDescent fit l xt

/-- From `node.cpp` lines 78-90 (`Node::clearObservations`), as invoked
on the children of a node by `addObservationsToChildren`: every node of
the subtree is non-top, so each gets `observationIndices = NULL;
numObservations = 0`, modelled as the `(0, 0)` slice (the zeroing of the
leaf `average` is a statistics effect, not modelled). -/
def Node.clearObservations : Node → Node
  | .leaf _ vars => .leaf (0, 0) vars
  | .branch _ vars rule l r => .branch (0, 0) vars rule l.clearObservations r.clearObservations

/-- Splice `seg` into `arr` at offset `s`, replacing the positions
`[s, s + seg.length)`: the in-place update of one node's sub-range of the
shared index buffer. -/
def writeSlice (arr : List Nat) (s : Nat) (seg : List Nat) : List Nat :=
  arr.take s ++ seg ++ arr.drop (s + seg.length)

/-- Worker for `Node::addObservationsToChildren` (`node.cpp` lines
658-680, the statistics-free variant; the index bookkeeping of the
statistics variant at lines 615-656 is identical): `s, l` is the slice
the caller just assigned to this node.  At an inner node with
`numObservations > 0` the node's sub-range of the buffer is partitioned
(range mode at the tree top, index mode elsewhere), the children receive
the sub-slices `(s, numOnLeft)` and `(s + numOnLeft, l - numOnLeft)`, and
the recursion continues; with `numObservations == 0` the children stay as
`clearObservations` leaves them.  The source clears both children first
and then overwrites what the recursion reaches; here the recursion
rebuilds every node it reaches, so only the subtrees the source's
recursion does not reach (those below an empty inner node) take their
state from `clearObservations`. -/
def addObservationsToChildrenGo (fit : BARTFit) : Bool → Node → Nat → Nat → List Nat → Node × List Nat
  | _, .leaf _ vars, s, l, arr => (.leaf (s, l) vars, arr)
  | isTop, .branch _ vars rule a b, s, l, arr =>
    if 0 < l then
      let seg := (arr.drop s).take l
      let pr := if isTop then partitionRange fit rule seg else partitionIndices fit rule seg
      let arr1 := writeSlice arr s pr.2
      let ra := addObservationsToChildrenGo fit false a s pr.1 arr1
      let rb := addObservationsToChildrenGo fit false b (s + pr.1) (l - pr.1) ra.2
      (.branch (s, l) vars rule ra.1 rb.1, rb.2)
    else
      (.branch (s, l) vars rule a.clearObservations b.clearObservations, arr)

/-- `Node::addObservationsToChildren` on a node whose own slice is
already set: the top-level entry passes the node's stored slice. -/
def Node.addObservationsToChildren (fit : BARTFit) (isTop : Bool) (t : Node) (arr : List Nat) :
    Node × List Nat :=
  addObservationsToChildrenGo fit isTop t t.slice.1 t.slice.2 arr

/-- From `node.cpp` lines 791-803 (`Node::split`, statistics-free
variant; the variant with statistics at lines 777-789 performs the same
guard and structural steps): reject a rule with a negative
`variableIndex` before any modification (`ext_throwError`, modelled as
`none`), otherwise store the rule, create two fresh children that copy
the parent's `variablesAvailableForSplit` (clearing the split variable
in a child whose remaining range is exhausted), and run
`addObservationsToChildren`. -/
def Node.split (fit : BARTFit) (isTop : Bool) (t : Node) (rule : Rule)
    (exhaustedLeftSplits exhaustedRightSplits : Bool) (arr : List Nat) :
    Option (Node × List Nat) :=
  if rule.variableIndex < 0 then none
  else
    let leftVars := if exhaustedLeftSplits then
        t.variablesAvailableForSplit.set rule.variableIndex.toNat false
      else t.variablesAvailableForSplit
    let rightVars := if exhaustedRightSplits then
        t.variablesAvailableForSplit.set rule.variableIndex.toNat false
      else t.variablesAvailableForSplit
    let t0 := Node.branch t.slice t.variablesAvailableForSplit rule
      (.leaf (0, 0) leftVars) (.leaf (0, 0) rightVars)
    some (Node.addObservationsToChildren fit isTop t0 arr)

/-- From `node.cpp` lines 805-815 (`Node::orphanChildren`): the children
are discarded and the node reverts to a leaf with its slice unchanged
(the merge of the children's leaf statistics is double arithmetic, not
modelled).  On a leaf the source would dereference the null `leftChild`,
modelled as `none`. -/
def Node.orphanChildren : Node → Option Node
  | .leaf _ _ => none
  | .branch sl vars _ _ _ => some (.leaf sl vars)

/-- One structural proposal applied somewhere in a tree: the external
sampler either splits the node at a path or orphans its children. -/
inductive TreeOp where
  | split (path : List Bool) (rule : Rule) (exhaustedLeftSplits exhaustedRightSplits : Bool)
  | orphan (path : List Bool)

/-- Apply `Node::split` to the node reached by `path` (`false` = left,
`true` = right), threading the shared buffer; the node is the tree top
exactly when the path is empty.  A path that leaves the tree fails. -/
def splitAtPath (fit : BARTFit) (rule : Rule) (exL exR : Bool) :
    Bool → Node → List Bool → List Nat → Option (Node × List Nat)
  | isTop, t, [], arr => Node.split fit isTop t rule exL exR arr
  | _, .branch sl vars rule0 a b, true :: rest, arr =>
    (splitAtPath fit rule exL exR false b rest arr).map
      (fun rb => (.branch sl vars rule0 a rb.1, rb.2))
  | _, .branch sl vars rule0 a b, false :: rest, arr =>
    (splitAtPath fit rule exL exR false a rest arr).map
      (fun ra => (.branch sl vars rule0 ra.1 b, ra.2))
  | _, .leaf _ _, _ :: _, _ => none

/-- Apply `Node::orphanChildren` to the node reached by `path`. -/
def orphanAtPath : Node → List Bool → Option Node
  | t, [] => t.orphanChildren
  | .branch sl vars rule a b, true :: rest =>
    (orphanAtPath b rest).map (fun b2 => .branch sl vars rule a b2)
  | .branch sl vars rule a b, false :: rest =>
    (orphanAtPath a rest).map (fun a2 => .branch sl vars rule a2 b)
  | .leaf _ _, _ :: _ => none

/-- Apply one proposal to the (tree, shared index buffer) state. -/
def applyTreeOp (fit : BARTFit) (st : Node × List Nat) : TreeOp → Option (Node × List Nat)
  | .split path rule exL exR => splitAtPath fit rule exL exR true st.1 path st.2
  | .orphan path => (orphanAtPath st.1 path).map (fun t2 => (t2, st.2))

/-- Run a sequence of proposals, stopping at the first failure. -/
def runTreeOps (fit : BARTFit) : List TreeOp → Node × List Nat → Option (Node × List Nat)
  | [], st => some st
  | op :: rest, st =>
    match applyTreeOp fit st op with
    | none => none
    | some st2 => runTreeOps fit rest st2

/-- A freshly built tree: the top node owns the slice
`[0, numObservations)` and every variable is available
(`Node::Node(size_t*, size_t, size_t)`, `node.cpp` lines 104-110, via
the `Tree` constructor in `tree.hpp` line 18). -/
def initialTree (fit : BARTFit) : Node :=
  .leaf (0, fit.numObservations) (List.replicate fit.numPredictors true)

/-- A fresh (tree, buffer) state: the tree's shared index buffer holds
`0, 1, ..., numObservations - 1`. -/
def initialState (fit : BARTFit) : Node × List Nat :=
  (initialTree fit, List.range fit.numObservations)

/-- The list of buffer positions a slice covers:
`start, start + 1, ..., start + length - 1`. -/
def posList (sl : Nat × Nat) : List Nat :=
  (List.range sl.2).map (fun i => sl.1 + i)

/-- The slices of the bottom nodes, depth-first left to right. -/
def leafSlices : Node → List (Nat × Nat)
  | .leaf sl _ => [sl]
  | .branch _ _ _ a b => leafSlices a ++ leafSlices b

/-- The observation indices stored in the bottom nodes' slices of the
shared buffer, concatenated depth-first left to right. -/
def leafContents (t : Node) (arr : List Nat) : List Nat :=
  ((leafSlices t).map (fun sl => (arr.drop sl.1).take sl.2)).flatten

/-- Structural slice invariant: at every inner node the two children's
slice lengths sum to the parent's, and (when the parent is non-empty)
the left child starts where the parent starts and the right child starts
immediately after the left child ends. -/
def tiles : Node → Prop
  | .leaf _ _ => True
  | .branch sl _ _ a b =>
    tiles a ∧ tiles b ∧ a.slice.2 + b.slice.2 = sl.2 ∧
      (0 < sl.2 → a.slice.1 = sl.1 ∧ b.slice.1 = sl.1 + a.slice.2)

/-- Each node's slice covers only positions covered by its parent's
slice (the claim's contiguous sub-range condition, read on the buffer
positions so that the null slice of an empty child is the empty range). -/
def contained : Node → Prop
  | .leaf _ _ => True
  | .branch sl _ _ a b =>
    (∀ p ∈ posList a.slice, p ∈ posList sl) ∧
    (∀ p ∈ posList b.slice, p ∈ posList sl) ∧ contained a ∧ contained b

/-- True when no inner node's rule is over a categorical variable. -/
def noCategoricalRules (fit : BARTFit) : Node → Bool
  | .leaf _ _ => true
  | .branch _ _ rule a b =>
    decide (fit.variableTypes rule.variableIndex.toNat ≠ VariableType.CATEGORICAL) &&
    noCategoricalRules fit a && noCategoricalRules fit b

/-- Little-endian base-256 digits of `v`, `k` bytes wide: the byte image
of one fixed-width field. -/
def toBytesLE : Nat → Nat → List Nat
  | 0, _ => []
  | k + 1, v => (v % 256) :: toBytesLE k (v / 256)

/-- Recompose a little-endian byte run into a number. -/
def fromBytesLE : List Nat → Nat
  | [] => 0
  | b :: bs => b + 256 * fromBytesLE bs

/-- Take `k` bytes off the front of the stream; fails (like a short read
from the underlying source) when fewer remain. -/
def readNBytes (k : Nat) (bs : List Nat) : Option (List Nat × List Nat) :=
  if k ≤ bs.length then some (bs.take k, bs.drop k) else none

/-- Modelled from the spec: the `ext_bio_*` primitives live in
`external/binaryIO.c`, not under `src/`.  Per spec section 6, each writes
one fixed-width field to a sequential byte sink; a `uint32_t` is 4 bytes. -/
def ext_bio_writeUnsigned32BitInteger (v : Nat) : List Nat := toBytesLE 4 v

/-- Modelled from the spec: `size` fields use the platform word, 8 bytes
on the 64-bit platform modelled here. -/
def ext_bio_writeSizeType (v : Nat) : List Nat := toBytesLE 8 v

/-- Modelled from the spec: a double is written as its 8-byte pattern;
`v` is that 64-bit bit pattern (doubles are never interpreted
arithmetically by the codec). -/
def ext_bio_writeDouble (v : Nat) : List Nat := toBytesLE 8 v

/-- Modelled from the spec: `ext_bio_writeNChars` emits the raw bytes. -/
def ext_bio_writeNChars (cs : List Nat) : List Nat := cs

/-- Modelled from the spec: read one `uint32_t` (4 bytes). -/
def ext_bio_readUnsigned32BitInteger (bs : List Nat) : Option (Nat × List Nat) :=
  (readNBytes 4 bs).map (fun p => (fromBytesLE p.1, p.2))

/-- Modelled from the spec: read one `size_t` (8 bytes). -/
def ext_bio_readSizeType (bs : List Nat) : Option (Nat × List Nat) :=
  (readNBytes 8 bs).map (fun p => (fromBytesLE p.1, p.2))

/-- Modelled from the spec: read one double's 8-byte pattern. -/
def ext_bio_readDouble (bs : List Nat) : Option (Nat × List Nat) :=
  (readNBytes 8 bs).map (fun p => (fromBytesLE p.1, p.2))

/-- Modelled from the spec: read `k` raw bytes. -/
def ext_bio_readNChars (k : Nat) (bs : List Nat) : Option (List Nat × List Nat) :=
  readNBytes k bs

/-- Write `count` doubles starting at a (possibly null) array pointer,
modelled as an optional list of 64-bit patterns.  Reading past the
allocation, or through a null pointer with `count > 0`, is undefined
behaviour in the source (`ext_bio_writeNDoubles(bio, NULL, n)` reads
`NULL[0..n)`), modelled as `none`. -/
def writeNDoublesFrom (p : Option (List Nat)) (count : Nat) : Option (List Nat) :=
  match p with
  | some vs => if count ≤ vs.length then some (((vs.take count).map (toBytesLE 8)).flatten)
    else none
  | none => if count = 0 then some [] else none

/-- Write `count` `uint32_t`s from a (possibly null) array pointer; null
with `count > 0` is undefined behaviour, modelled as `none`. -/
def writeNUnsigned32BitIntegersFrom (p : Option (List Nat)) (count : Nat) : Option (List Nat) :=
  match p with
  | some vs => if count ≤ vs.length then some (((vs.take count).map (toBytesLE 4)).flatten)
    else none
  | none => if count = 0 then some [] else none

/-- The `uint32_t` tag of a `VariableType`, as in
`static_cast<uint32_t>(data.variableTypes[i])` (`binaryIO.cpp` line 123). -/
def VariableType.tag : VariableType → Nat
  | .ORDINAL => 0
  | .CATEGORICAL => 1

/-- The fields of `Control` that `writeControl`/`readControl`
(`binaryIO.cpp` lines 27-86) touch.  Scalar `uint32_t`/`size_t` fields
are `Nat`s; `callback`/`callbackData` are process-local pointers,
modelled as optional values (`none` = `NULL`). -/
structure Control where
  responseIsBinary : Bool
  verbose : Bool
  keepTrainingFits : Bool
  useQuantiles : Bool
  numSamples : Nat
  numBurnIn : Nat
  numTrees : Nat
  numThreads : Nat
  treeThinningRate : Nat
  printEvery : Nat
  printCutoffs : Nat
  callback : Option Nat
  callbackData : Option Nat
deriving DecidableEq, Repr

/-- From `binaryIO.cpp` lines 27-52 (`writeControl`): pack the four flag
bits, then write the four `size_t` fields and three `uint32_t` fields in
order.  The byte-buffer sink never fails, so the result is the stream. -/
def writeControl (control : Control) : List Nat :=
  ext_bio_writeUnsigned32BitInteger
    ((if control.responseIsBinary then 1 else 0) + (if control.verbose then 2 else 0) +
      (if control.keepTrainingFits then 4 else 0) + (if control.useQuantiles then 8 else 0)) ++
  ext_bio_writeSizeType control.numSamples ++
  ext_bio_writeSizeType control.numBurnIn ++
  ext_bio_writeSizeType control.numTrees ++
  ext_bio_writeSizeType control.numThreads ++
  ext_bio_writeUnsigned32BitInteger control.treeThinningRate ++
  ext_bio_writeUnsigned32BitInteger control.printEvery ++
  ext_bio_writeUnsigned32BitInteger control.printCutoffs

/-- From `binaryIO.cpp` lines 54-86 (`readControl`): read the fields in
write order into the out-parameter, stopping at the first failing read
(the `goto read_control_cleanup` chain); `callback` and `callbackData`
are set to `NULL` only after every read has succeeded, since a failure
jumps past those two assignments.  Returns (success, the out-parameter
as left by the call, the remaining stream). -/
def readControl (control : Control) (bs : List Nat) : Bool × Control × List Nat :=
  match ext_bio_readUnsigned32BitInteger bs with
  | none => (false, control, bs)
  | some (controlFlags, bs1) =>
    let c1 := { control with
      responseIsBinary := decide (controlFlags &&& 1 ≠ 0),
      verbose := decide (controlFlags &&& 2 ≠ 0),
      keepTrainingFits := decide (controlFlags &&& 4 ≠ 0),
      useQuantiles := decide (controlFlags &&& 8 ≠ 0) }
    match ext_bio_readSizeType bs1 with
    | none => (false, c1, bs1)
    | some (v2, bs2) =>
      let c2 := { c1 with numSamples := v2 }
      match ext_bio_readSizeType bs2 with
      | none => (false, c2, bs2)
      | some (v3, bs3) =>
        let c3 := { c2 with numBurnIn := v3 }
        match ext_bio_readSizeType bs3 with
        | none => (false, c3, bs3)
        | some (v4, bs4) =>
          let c4 := { c3 with numTrees := v4 }
          match ext_bio_readSizeType bs4 with
          | none => (false, c4, bs4)
          | some (v5, bs5) =>
            let c5 := { c4 with numThreads := v5 }
            match ext_bio_readUnsigned32BitInteger bs5 with
            | none => (false, c5, bs5)
            | some (v6, bs6) =>
              let c6 := { c5 with treeThinningRate := v6 }
              match ext_bio_readUnsigned32BitInteger bs6 with
              | none => (false, c6, bs6)
              | some (v7, bs7) =>
                let c7 := { c6 with printEvery := v7 }
                match ext_bio_readUnsigned32BitInteger bs7 with
                | none => (false, c7, bs7)
                | some (v8, bs8) =>
                  let c8 :=
                    { c7 with printCutoffs := v8, callback := none, callbackData := none }
                  (true, c8, bs8)

/-- The fields of `Data` that `writeData` (`binaryIO.cpp` lines 93-135)
reads: counts, the sigma estimate's bit pattern, and the arrays.  An
array pointer is `none` when `NULL`, otherwise the list of its elements'
64-bit (or 32-bit) patterns. -/
structure Data where
  numObservations : Nat
  numPredictors : Nat
  numTestObservations : Nat
  sigmaEstimate : Nat
  y : Option (List Nat)
  X : Option (List Nat)
  X_test : Option (List Nat)
  weights : Option (List Nat)
  offset : Option (List Nat)
  testOffset : Option (List Nat)
  variableTypes : Option (List VariableType)
  maxNumCuts : Option (List Nat)
deriving DecidableEq, Repr

/-- From `binaryIO.cpp` lines 93-135 (`writeData`): flags from the
null-ness of `weights`/`offset`/`testOffset`/`maxNumCuts`, then the
counts, sigma, `y`, `X`, `X_test` only when `numTestObservations > 0`,
each optional double array only when non-null, the variable-type tags --
and then, at line 127, `maxNumCuts` is written unconditionally, even
when the flag just declared it absent (a `NULL` dereference when it is,
modelled as `none`). -/
def writeData (data : Data) : Option (List Nat) :=
  (writeNDoublesFrom data.y data.numObservations).bind (fun yBytes =>
  (writeNDoublesFrom data.X (data.numObservations * data.numPredictors)).bind (fun xBytes =>
  (if 0 < data.numTestObservations then
      writeNDoublesFrom data.X_test (data.numTestObservations * data.numPredictors)
    else some []).bind (fun xtBytes =>
  (if data.weights.isSome then writeNDoublesFrom data.weights data.numObservations
    else some []).bind (fun wBytes =>
  (if data.offset.isSome then writeNDoublesFrom data.offset data.numObservations
    else some []).bind (fun oBytes =>
  (if data.testOffset.isSome then writeNDoublesFrom data.testOffset data.numTestObservations
    else some []).bind (fun toBytes2 =>
  (writeNUnsigned32BitIntegersFrom (data.variableTypes.map (fun ts => ts.map VariableType.tag))
      data.numPredictors).bind (fun vtBytes =>
  (writeNUnsigned32BitIntegersFrom data.maxNumCuts data.numPredictors).bind (fun mcBytes =>
  some (ext_bio_writeUnsigned32BitInteger
      ((if data.weights.isSome then 1 else 0) + (if data.offset.isSome then 2 else 0) +
        (if data.testOffset.isSome then 4 else 0) + (if data.maxNumCuts.isSome then 8 else 0)) ++
    ext_bio_writeSizeType data.numObservations ++
    ext_bio_writeSizeType data.numPredictors ++
    ext_bio_writeSizeType data.numTestObservations ++
    ext_bio_writeDouble data.sigmaEstimate ++
    yBytes ++ xBytes ++ xtBytes ++ wBytes ++ oBytes ++ toBytes2 ++ vtBytes ++ mcBytes)))))))))

/-- The allocator state threaded through the decode routines: a counter
of fresh block ids and the set of currently live (allocated, not yet
freed) blocks. -/
structure Heap where
  nextId : Nat
  live : Finset Nat
deriving DecidableEq

/-- `new`: return a fresh block id and mark it live. -/
def Heap.alloc (h : Heap) : Nat × Heap :=
  (h.nextId, ⟨h.nextId + 1, insert h.nextId h.live⟩)

/-- `delete` through a possibly-null pointer: deleting `NULL` is a
no-op, otherwise the block stops being live. -/
def Heap.free (h : Heap) (p : Option Nat) : Heap :=
  match p with
  | none => h
  | some blockId => ⟨h.nextId, h.live.erase blockId⟩

/-- The `Data` out-parameter as `readData` sees it: the scalar fields
plus the eight array-pointer fields (`none` = `NULL`, `some blockId` = a
pointer to that heap block).  The decoded array contents play no role in
the failure-cleanup claims, so only the pointers are tracked. -/
structure DataPointers where
  numObservations : Nat
  numPredictors : Nat
  numTestObservations : Nat
  sigmaEstimate : Nat
  y : Option Nat
  X : Option Nat
  X_test : Option Nat
  weights : Option Nat
  offset : Option Nat
  testOffset : Option Nat
  variableTypes : Option Nat
  maxNumCuts : Option Nat
deriving DecidableEq, Repr

/-- From `binaryIO.cpp` lines 187-201 (`read_data_cleanup`): on failure
the eight array pointers are deleted in the order `maxNumCuts`,
`variableTypes`, `testOffset`, `offset`, `weights`, `X_test`, `X`, `y`;
the pointer fields themselves are not nulled. -/
def cleanupData (d : DataPointers) (h : Heap) : Heap :=
  (((((((h.free d.maxNumCuts).free d.variableTypes).free d.testOffset).free
    d.offset).free d.weights).free d.X_test).free d.X).free d.y

/-- One optional-or-mandatory array field of `Data` decoded as
`readData` does it (e.g. `binaryIO.cpp` lines 162-165): when the field
is present (`cond`), allocate the array (`new double[...]`), store the
pointer in the field, and read the array's bytes, failing to the cleanup
on a short read; when absent, store `NULL` and read nothing.  `set`
writes a pointer into the field this stage decodes; the carried state is
(out-parameter, heap, remaining stream), and a failure carries the state
as it is at the jump to `read_data_cleanup`. -/
def allocThenRead (cond : Bool) (count : Nat)
    (set : Option Nat → DataPointers → DataPointers)
    (d : DataPointers) (h : Heap) (bs : List Nat) :
    Except (DataPointers × Heap × List Nat) (DataPointers × Heap × List Nat) :=
  if cond then
    let a := h.alloc
    let d2 := set (some a.1) d
    match readNBytes count bs with
    | none => .error (d2, a.2, bs)
    | some (_, bs2) => .ok (d2, a.2, bs2)
  else .ok (set none d, h, bs)

/-- The `variableTypes` stage of `readData` (`binaryIO.cpp` lines
177-180): the raw `uint32_t`s are read into a stack buffer first
(failing to the cleanup before any allocation), and only then is
`data.variableTypes` allocated. -/
def readThenAlloc (count : Nat) (set : Option Nat → DataPointers → DataPointers)
    (d : DataPointers) (h : Heap) (bs : List Nat) :
    Except (DataPointers × Heap × List Nat) (DataPointers × Heap × List Nat) :=
  match readNBytes count bs with
  | none => .error (d, h, bs)
  | some (_, bs2) =>
    let a := h.alloc
    .ok (set (some a.1) d, a.2, bs2)

/-- Stage of `readData` at `binaryIO.cpp` lines 182-185: decode
`maxNumCuts` when flag bit 8 is set. -/
def readDataMaxNumCuts (dataFlags : Nat) (d : DataPointers) (h : Heap) (bs : List Nat) :
    Except (DataPointers × Heap × List Nat) (DataPointers × Heap × List Nat) :=
  allocThenRead (decide (dataFlags &&& 8 ≠ 0)) (4 * d.numPredictors)
    (fun p d2 => { d2 with maxNumCuts := p }) d h bs

/-- Stage of `readData` at `binaryIO.cpp` lines 177-180: decode the
variable types, then continue with `maxNumCuts`. -/
def readDataVariableTypes (dataFlags : Nat) (d : DataPointers) (h : Heap) (bs : List Nat) :
    Except (DataPointers × Heap × List Nat) (DataPointers × Heap × List Nat) :=
  match readThenAlloc (4 * d.numPredictors) (fun p d2 => { d2 with variableTypes := p }) d h bs with
  | .error r => .error r
  | .ok (d2, h2, bs2) => readDataMaxNumCuts dataFlags d2 h2 bs2

/-- Stage of `readData` at `binaryIO.cpp` lines 172-175: decode
`testOffset` when flag bit 4 is set, then continue. -/
def readDataTestOffset (dataFlags : Nat) (d : DataPointers) (h : Heap) (bs : List Nat) :
    Except (DataPointers × Heap × List Nat) (DataPointers × Heap × List Nat) :=
  match allocThenRead (decide (dataFlags &&& 4 ≠ 0)) (8 * d.numTestObservations)
      (fun p d2 => { d2 with testOffset := p }) d h bs with
  | .error r => .error r
  | .ok (d2, h2, bs2) => readDataVariableTypes dataFlags d2 h2 bs2

/-- Stage of `readData` at `binaryIO.cpp` lines 167-170: decode `offset`
when flag bit 2 is set, then continue. -/
def readDataOffset (dataFlags : Nat) (d : DataPointers) (h : Heap) (bs : List Nat) :
    Except (DataPointers × Heap × List Nat) (DataPointers × Heap × List Nat) :=
  match allocThenRead (decide (dataFlags &&& 2 ≠ 0)) (8 * d.numObservations)
      (fun p d2 => { d2 with offset := p }) d h bs with
  | .error r => .error r
  | .ok (d2, h2, bs2) => readDataTestOffset dataFlags d2 h2 bs2

/-- Stage of `readData` at `binaryIO.cpp` lines 162-165: decode
`weights` when flag bit 1 is set, then continue. -/
def readDataWeights (dataFlags : Nat) (d : DataPointers) (h : Heap) (bs : List Nat) :
    Except (DataPointers × Heap × List Nat) (DataPointers × Heap × List Nat) :=
  match allocThenRead (decide (dataFlags &&& 1 ≠ 0)) (8 * d.numObservations)
      (fun p d2 => { d2 with weights := p }) d h bs with
  | .error r => .error r
  | .ok (d2, h2, bs2) => readDataOffset dataFlags d2 h2 bs2

/-- Stage of `readData` at `binaryIO.cpp` lines 157-160: decode `X_test`
when `numTestObservations > 0` (`NULL` otherwise), then continue. -/
def readDataXTest (dataFlags : Nat) (d : DataPointers) (h : Heap) (bs : List Nat) :
    Except (DataPointers × Heap × List Nat) (DataPointers × Heap × List Nat) :=
  match allocThenRead (decide (0 < d.numTestObservations))
      (8 * (d.numTestObservations * d.numPredictors))
      (fun p d2 => { d2 with X_test := p }) d h bs with
  | .error r => .error r
  | .ok (d2, h2, bs2) => readDataWeights dataFlags d2 h2 bs2

/-- Stage of `readData` at `binaryIO.cpp` lines 154-155: decode `X`,
then continue. -/
def readDataX (dataFlags : Nat) (d : DataPointers) (h : Heap) (bs : List Nat) :
    Except (DataPointers × Heap × List Nat) (DataPointers × Heap × List Nat) :=
  match allocThenRead true (8 * (d.numObservations * d.numPredictors))
      (fun p d2 => { d2 with X := p }) d h bs with
  | .error r => .error r
  | .ok (d2, h2, bs2) => readDataXTest dataFlags d2 h2 bs2

/-- Stage of `readData` at `binaryIO.cpp` lines 151-152: decode `y`,
then continue. -/
def readDataY (dataFlags : Nat) (d : DataPointers) (h : Heap) (bs : List Nat) :
    Except (DataPointers × Heap × List Nat) (DataPointers × Heap × List Nat) :=
  match allocThenRead true (8 * d.numObservations)
      (fun p d2 => { d2 with y := p }) d h bs with
  | .error r => .error r
  | .ok (d2, h2, bs2) => readDataX dataFlags d2 h2 bs2

/-- The straight-line body of `readData` (`binaryIO.cpp` lines 143-185):
the flag word, the three counts and sigma (lines 143-148), then the
array stages in write order.  A failure is an `Except.error` carrying
the out-parameter, heap, and stream position at the jump to
`read_data_cleanup`. -/
def readDataGo (data : DataPointers) (bs : List Nat) (h : Heap) :
    Except (DataPointers × Heap × List Nat) (DataPointers × Heap × List Nat) :=
  match ext_bio_readUnsigned32BitInteger bs with
  | none => .error (data, h, bs)
  | some (dataFlags, bs1) =>
  match ext_bio_readSizeType bs1 with
  | none => .error (data, h, bs1)
  | some (v1, bs2) =>
  match ext_bio_readSizeType bs2 with
  | none => .error ({ data with numObservations := v1 }, h, bs2)
  | some (v2, bs3) =>
  match ext_bio_readSizeType bs3 with
  | none => .error ({ data with numObservations := v1, numPredictors := v2 }, h, bs3)
  | some (v3, bs4) =>
  match ext_bio_readDouble bs4 with
  | none => .error ({ data with numObservations := v1, numPredictors := v2, numTestObservations := v3 }, h, bs4)
  | some (v4, bs5) =>
  readDataY dataFlags
    { data with numObservations := v1, numPredictors := v2, numTestObservations := v3, sigmaEstimate := v4 }
    h bs5

/-- From `binaryIO.cpp` lines 137-204 (`readData`): run the straight-line
body; on its first failure the single `read_data_cleanup` label frees
every pointer currently stored in the out-parameter and the function
returns `false`, without nulling the fields.  Result: (success,
out-parameter as left by the call, heap, remaining stream). -/
def readData (data : DataPointers) (bs : List Nat) (h : Heap) :
    Bool × DataPointers × Heap × List Nat :=
  match readDataGo data bs h with
  | .error r => (false, r.1, cleanupData r.1 r.2.1, r.2.2)
  | .ok r => (true, r.1, r.2.1, r.2.2)

/-- The state carried by either outcome of the fallible decode body. -/
def exceptState (r : Except (DataPointers × Heap × List Nat) (DataPointers × Heap × List Nat)) :
    DataPointers × Heap × List Nat :=
  match r with
  | .error st => st
  | .ok st => st

/-- The fields of `Model` that `readModel` (`binaryIO.cpp` lines
235-279) touches: four move-probability doubles (kept as bit patterns)
and the three prior-object pointers (`none` = `NULL`). -/
structure Model where
  birthOrDeathProbability : Nat
  swapProbability : Nat
  changeProbability : Nat
  birthProbability : Nat
  treePrior : Option Nat
  endNodeModel : Option Nat
  sigmaSqPrior : Option Nat
deriving DecidableEq, Repr

/-- From `binaryIO.cpp` lines 268-276 (`read_model_cleanup`): on failure
delete `sigmaSqPrior`, `endNodeModel`, `treePrior` (in that order),
without nulling the pointer fields. -/
def cleanupModel (m : Model) (h : Heap) : Heap :=
  ((h.free m.sigmaSqPrior).free m.endNodeModel).free m.treePrior

/-- Decode failure kinds (section 7 of the spec): `io` is a failure of
the underlying source (an `errno` from `ext_bio`), `EILSEQ` is the
"invalid sequence" kind raised on a tag mismatch. -/
inductive BioError where
  | io : BioError
  | EILSEQ : BioError
deriving DecidableEq, Repr

/-- The 4 ASCII bytes of the tag `"cgm "` written before the tree
prior's parameters. -/
def cgmTag : List Nat := [99, 103, 109, 32]

/-- The 4 ASCII bytes of the tag `"nrml"` written before the end-node
model's parameters. -/
def nrmlTag : List Nat := [110, 114, 109, 108]

/-- The 4 ASCII bytes of the tag `"chsq"` written before the
sigma-squared prior's parameters. -/
def chsqTag : List Nat := [99, 104, 115, 113]

/-- From `binaryIO.cpp` lines 259-266 (`readModel`, `"chsq"` section):
read 4 tag bytes and compare with `"chsq"` -- a mismatch sets
`errorCode = EILSEQ` and jumps to the cleanup -- then allocate the
chi-squared prior (`new ChiSquaredPrior`) and read its two parameter
doubles, any short read jumping to the cleanup; the cleanup deletes
whatever the three prior pointers currently hold. -/
def readModelChsq (m : Model) (h : Heap) (bs : List Nat) :
    Option BioError × Model × Heap × List Nat :=
  match ext_bio_readNChars 4 bs with
  | none => (some .io, m, cleanupModel m h, bs)
  | some (tag3, bs10) =>
  if tag3 ≠ chsqTag then (some .EILSEQ, m, cleanupModel m h, bs10)
  else
  let a3 := h.alloc
  let m7 := { m with sigmaSqPrior := some a3.1 }
  match ext_bio_readDouble bs10 with
  | none => (some .io, m7, cleanupModel m7 a3.2, bs10)
  | some (_, bs11) =>
  match ext_bio_readDouble bs11 with
  | none => (some .io, m7, cleanupModel m7 a3.2, bs11)
  | some (_, bs12) =>
  (none, m7, a3.2, bs12)

/-- From `binaryIO.cpp` lines 253-257 (`readModel`, `"nrml"` section):
read 4 tag bytes and compare with `"nrml"` -- a mismatch sets
`errorCode = EILSEQ` and jumps to the cleanup -- then allocate the
end-node model (`EndNode::createMeanNormalModel()`) and read its one
parameter double, then fall through to the `"chsq"` section. -/
def readModelNrml (m : Model) (h : Heap) (bs : List Nat) :
    Option BioError × Model × Heap × List Nat :=
  match ext_bio_readNChars 4 bs with
  | none => (some .io, m, cleanupModel m h, bs)
  | some (tag2, bs8) =>
  if tag2 ≠ nrmlTag then (some .EILSEQ, m, cleanupModel m h, bs8)
  else
  let a2 := h.alloc
  let m6 := { m with endNodeModel := some a2.1 }
  match ext_bio_readDouble bs8 with
  | none => (some .io, m6, cleanupModel m6 a2.2, bs8)
  | some (_, bs9) =>
  readModelChsq m6 a2.2 bs9

/-- From `binaryIO.cpp` lines 246-251 (`readModel`, `"cgm "` section):
read 4 tag bytes and compare with `"cgm "` -- a mismatch sets
`errorCode = EILSEQ` and jumps to the cleanup -- then allocate the tree
prior (`new CGMPrior`) and read its two parameter doubles, then fall
through to the `"nrml"` section. -/
def readModelCgm (m : Model) (h : Heap) (bs : List Nat) :
    Option BioError × Model × Heap × List Nat :=
  match ext_bio_readNChars 4 bs with
  | none => (some .io, m, cleanupModel m h, bs)
  | some (tag1, bs5) =>
  if tag1 ≠ cgmTag then (some .EILSEQ, m, cleanupModel m h, bs5)
  else
  let a1 := h.alloc
  let m5 := { m with treePrior := some a1.1 }
  match ext_bio_readDouble bs5 with
  | none => (some .io, m5, cleanupModel m5 a1.2, bs5)
  | some (_, bs6) =>
  match ext_bio_readDouble bs6 with
  | none => (some .io, m5, cleanupModel m5 a1.2, bs6)
  | some (_, bs7) =>
  readModelNrml m5 a1.2 bs7

/-- From `binaryIO.cpp` lines 234-279 (`readModel`): read the four move
probabilities, stopping at the first failing read (the
`goto read_model_cleanup` chain), then run the three tag-checked prior
sections in order.  Result: (error kind if any, the out-parameter as
left, heap, remaining stream). -/
def readModel (model : Model) (bs : List Nat) (h : Heap) :
    Option BioError × Model × Heap × List Nat :=
  match ext_bio_readDouble bs with
  | none => (some .io, model, cleanupModel model h, bs)
  | some (v1, bs1) =>
  let m1 := { model with birthOrDeathProbability := v1 }
  match ext_bio_readDouble bs1 with
  | none => (some .io, m1, cleanupModel m1 h, bs1)
  | some (v2, bs2) =>
  let m2 := { m1 with swapProbability := v2 }
  match ext_bio_readDouble bs2 with
  | none => (some .io, m2, cleanupModel m2 h, bs2)
  | some (v3, bs3) =>
  let m3 := { m2 with changeProbability := v3 }
  match ext_bio_readDouble bs3 with
  | none => (some .io, m3, cleanupModel m3 h, bs3)
  | some (v4, bs4) =>
  let m4 := { m3 with birthProbability := v4 }
  readModelCgm m4 h bs4

/-- Some array-pointer field of the `Data` out-parameter currently holds
block `b`. -/
def holdsPointer (d : DataPointers) (b : Nat) : Prop :=
  d.y = some b ∨ d.X = some b ∨ d.X_test = some b ∨ d.weights = some b ∨
  d.offset = some b ∨ d.testOffset = some b ∨ d.variableTypes = some b ∨ d.maxNumCuts = some b

/-- A well-formed heap: every live block id was produced by the counter. -/
def Heap.wf (h : Heap) : Prop := ∀ b ∈ h.live, b < h.nextId

/-- Mid-decode bookkeeping invariant for `readData`: the id counter only
grew, and every live block either was live before the call or was
allocated during it and is still reachable through a pointer field of
the out-parameter. -/
def HInvData (h0 : Heap) (d : DataPointers) (h : Heap) : Prop :=
  h0.nextId ≤ h.nextId ∧
  ∀ b ∈ h.live, (b ∈ h0.live ∧ b < h0.nextId) ∨ (h0.nextId ≤ b ∧ holdsPointer d b)

/-- All array-pointer fields of the out-parameter are null, as in a
freshly value-initialized `Data`. -/
def DataPointers.cleared (d : DataPointers) : Prop :=
  d.y = none ∧ d.X = none ∧ d.X_test = none ∧ d.weights = none ∧
  d.offset = none ∧ d.testOffset = none ∧ d.variableTypes = none ∧ d.maxNumCuts = none

-- ===================== theorems =====================

theorem getD_eq_getElem (l : List Nat) (n : Nat) (h : n < l.length) : l.getD n 0 = l[n] := by
  simp [List.getD_eq_getElem?_getD, List.getElem?_eq_getElem h]

theorem cons_set_perm (t : List Nat) :
    ∀ (k : Nat) (x : Nat), k < t.length → List.Perm (t.getD k 0 :: t.set k x) (x :: t) := by
  induction t with
  | nil => intro k x h; simp at h
  | cons y t' ih =>
    intro k x h
    cases k with
    | zero =>
      simp only [List.getD_cons_zero, List.set_cons_zero]
      exact List.Perm.swap x y t'
    | succ k' =>
      simp only [List.getD_cons_succ, List.set_cons_succ]
      have h' : k' < t'.length := by simpa using h
      have p1 : List.Perm (t'.getD k' 0 :: y :: t'.set k' x) (y :: t'.getD k' 0 :: t'.set k' x) :=
        List.Perm.swap y (t'.getD k' 0) (t'.set k' x)
      have p2 : List.Perm (y :: t'.getD k' 0 :: t'.set k' x) (y :: x :: t') :=
        List.Perm.cons y (ih k' x h')
      have p3 : List.Perm (y :: x :: t') (x :: y :: t') := List.Perm.swap x y t'
      exact p1.trans (p2.trans p3)

theorem swapL_perm :
    ∀ (a : List Nat) (i j : Nat), i < j → j < a.length → List.Perm (swapL a i j) a := by
  intro a
  induction a with
  | nil => intro i j _ h2; simp at h2
  | cons y t ih =>
    intro i j h1 h2
    cases i with
    | zero =>
      cases j with
      | zero => exact absurd h1 (Nat.lt_irrefl 0)
      | succ k =>
        have hk : k < t.length := by simpa using h2
        simp only [swapL, List.getD_cons_succ, List.getD_cons_zero, List.set_cons_zero,
          List.set_cons_succ]
        exact cons_set_perm t k y hk
    | succ m =>
      cases j with
      | zero => exact absurd h1 (by omega)
      | succ k =>
        have hk : k < t.length := by simpa using h2
        have hm : m < k := by omega
        simp only [swapL, List.getD_cons_succ, List.set_cons_succ]
        exact List.Perm.cons y (ih m k hm hk)

theorem swapL_length (a : List Nat) (i j : Nat) : (swapL a i j).length = a.length := by
  simp [swapL]

theorem scanLGo_ge (xv : Nat → Int) (cut : Int) (a : List Nat) :
    ∀ fuel lh, lh ≤ scanLGo xv cut a fuel lh := by
  intro fuel
  induction fuel with
  | zero => intro lh; exact Nat.le_refl lh
  | succ n ih =>
    intro lh
    simp only [scanLGo]
    split
    · exact Nat.le_trans (Nat.le_succ lh) (ih (lh + 1))
    · exact Nat.le_refl lh

theorem scanLGo_le (xv : Nat → Int) (cut : Int) (a : List Nat) :
    ∀ fuel lh, scanLGo xv cut a fuel lh ≤ lh + fuel := by
  intro fuel
  induction fuel with
  | zero => intro lh; simp [scanLGo]
  | succ n ih =>
    intro lh
    simp only [scanLGo]
    split
    · have := ih (lh + 1); omega
    · omega

theorem scanLGo_small (xv : Nat → Int) (cut : Int) (a : List Nat) :
    ∀ fuel lh i, lh ≤ i → i < scanLGo xv cut a fuel lh → xv (a.getD i 0) ≤ cut := by
  intro fuel
  induction fuel with
  | zero => intro lh i h1 h2; simp only [scanLGo] at h2; omega
  | succ n ih =>
    intro lh i h1 h2
    simp only [scanLGo] at h2
    by_cases hc : xv (a.getD lh 0) ≤ cut
    · simp only [if_pos hc] at h2
      rcases Nat.eq_or_lt_of_le h1 with heq | hlt
      · exact heq ▸ hc
      · exact ih (lh + 1) i hlt h2
    · simp only [if_neg hc] at h2; omega

theorem scanLGo_stop (xv : Nat → Int) (cut : Int) (a : List Nat) :
    ∀ fuel lh, scanLGo xv cut a fuel lh < lh + fuel →
      ¬ (xv (a.getD (scanLGo xv cut a fuel lh) 0) ≤ cut) := by
  intro fuel
  induction fuel with
  | zero => intro lh h; simp only [scanLGo] at h; omega
  | succ n ih =>
    intro lh h
    simp only [scanLGo] at h ⊢
    by_cases hc : xv (a.getD lh 0) ≤ cut
    · simp only [if_pos hc] at h ⊢
      exact ih (lh + 1) (by omega)
    · simp only [if_neg hc] at h ⊢
      exact hc

theorem scanRGo_le (xv : Nat → Int) (cut : Int) (a : List Nat) :
    ∀ fuel rh, scanRGo xv cut a fuel rh ≤ rh := by
  intro fuel
  induction fuel with
  | zero => intro rh; exact Nat.le_refl rh
  | succ n ih =>
    intro rh
    simp only [scanRGo]
    split
    · exact Nat.le_trans (ih (rh - 1)) (Nat.sub_le rh 1)
    · exact Nat.le_refl rh

theorem scanRGo_ge (xv : Nat → Int) (cut : Int) (a : List Nat) :
    ∀ fuel rh, rh - fuel ≤ scanRGo xv cut a fuel rh := by
  intro fuel
  induction fuel with
  | zero => intro rh; simp [scanRGo]
  | succ n ih =>
    intro rh
    simp only [scanRGo]
    split
    · have := ih (rh - 1); omega
    · omega

theorem scanRGo_big (xv : Nat → Int) (cut : Int) (a : List Nat) :
    ∀ fuel rh j, scanRGo xv cut a fuel rh < j → j ≤ rh → xv (a.getD j 0) > cut := by
  intro fuel
  induction fuel with
  | zero => intro rh j h1 h2; simp only [scanRGo] at h1; omega
  | succ n ih =>
    intro rh j h1 h2
    simp only [scanRGo] at h1
    by_cases hc : xv (a.getD rh 0) > cut
    · simp only [if_pos hc] at h1
      rcases Nat.eq_or_lt_of_le h2 with heq | hlt
      · exact heq ▸ hc
      · exact ih (rh - 1) j h1 (by omega)
    · simp only [if_neg hc] at h1; omega

theorem scanRGo_stop (xv : Nat → Int) (cut : Int) (a : List Nat) :
    ∀ fuel rh, rh - fuel < scanRGo xv cut a fuel rh →
      xv (a.getD (scanRGo xv cut a fuel rh) 0) ≤ cut := by
  intro fuel
  induction fuel with
  | zero => intro rh h; simp only [scanRGo] at h; omega
  | succ n ih =>
    intro rh h
    simp only [scanRGo] at h ⊢
    by_cases hc : xv (a.getD rh 0) > cut
    · simp only [if_pos hc] at h ⊢
      exact ih (rh - 1) (by omega)
    · simp only [if_neg hc] at h ⊢
      omega

theorem swapL_getD_right (a : List Nat) (i j : Nat) (hj : j < a.length) :
    (swapL a i j).getD j 0 = a.getD i 0 := by
  simp only [swapL, List.getD_eq_getElem?_getD]
  rw [List.getElem?_set_self (by simpa using hj)]
  rfl

theorem swapL_getD_left (a : List Nat) (i j : Nat) (hi : i < a.length) (hij : i ≠ j) :
    (swapL a i j).getD i 0 = a.getD j 0 := by
  simp only [swapL, List.getD_eq_getElem?_getD]
  rw [List.getElem?_set_ne (by omega), List.getElem?_set_self hi]
  rfl

theorem swapL_getD_other (a : List Nat) (i j p : Nat) (hpi : p ≠ i) (hpj : p ≠ j) :
    (swapL a i j).getD p 0 = a.getD p 0 := by
  simp only [swapL, List.getD_eq_getElem?_getD]
  rw [List.getElem?_set_ne (by omega), List.getElem?_set_ne (by omega)]

theorem hoareGo_correct (xv : Nat → Int) (cut : Int) :
    ∀ (fuel : Nat) (a : List Nat) (lh rh : Nat),
      rh - lh ≤ fuel → lh ≤ rh + 1 → lh < a.length → rh < a.length →
      (∀ i, i < lh → xv (a.getD i 0) ≤ cut) →
      (∀ j, rh < j → j < a.length → xv (a.getD j 0) > cut) →
      (hoareGo xv cut fuel a lh rh).1.length = a.length ∧
      List.Perm (hoareGo xv cut fuel a lh rh).1 a ∧
      (hoareGo xv cut fuel a lh rh).2 < a.length ∧
      (∀ i, i < (hoareGo xv cut fuel a lh rh).2 →
        xv ((hoareGo xv cut fuel a lh rh).1.getD i 0) ≤ cut) ∧
      (∀ j, (hoareGo xv cut fuel a lh rh).2 < j → j < a.length →
        xv ((hoareGo xv cut fuel a lh rh).1.getD j 0) > cut) := by
  intro fuel
  induction fuel with
  | zero =>
    intro a lh rh hfuel hlr hlh hrh hinvL hinvR
    refine ⟨rfl, List.Perm.refl a, hlh, hinvL, ?_⟩
    intro j hj hjl
    have hj' : lh < j := hj
    exact hinvR j (by omega) hjl
  | succ n ih =>
    intro a lh rh hfuel hlr hlh hrh hinvL hinvR
    have hunfold : hoareGo xv cut (n + 1) a lh rh =
        (if scanL xv cut a lh rh < scanR xv cut a (scanL xv cut a lh rh) rh then
          hoareGo xv cut n
            (swapL a (scanL xv cut a lh rh) (scanR xv cut a (scanL xv cut a lh rh) rh))
            (scanL xv cut a lh rh + 1) (scanR xv cut a (scanL xv cut a lh rh) rh - 1)
        else (a, scanL xv cut a lh rh)) := rfl
    rw [hunfold]
    set lh1 := scanL xv cut a lh rh with hlh1def
    set rh1 := scanR xv cut a lh1 rh with hrh1def
    have flhge : lh ≤ lh1 := by rw [hlh1def]; exact scanLGo_ge xv cut a _ lh
    have flhle : lh1 ≤ lh + (rh - lh) := by rw [hlh1def]; exact scanLGo_le xv cut a _ lh
    have fsmall : ∀ i, lh ≤ i → i < lh1 → xv (a.getD i 0) ≤ cut := by
      intro i h1 h2
      exact scanLGo_small xv cut a _ lh i h1 (hlh1def ▸ h2)
    have fstopL : lh1 < lh + (rh - lh) → ¬ (xv (a.getD lh1 0) ≤ cut) := by
      intro hlt
      rw [hlh1def] at hlt ⊢
      exact scanLGo_stop xv cut a _ lh hlt
    have frhle : rh1 ≤ rh := by rw [hrh1def]; exact scanRGo_le xv cut a _ rh
    have frhge : rh - (rh - lh1) ≤ rh1 := by rw [hrh1def]; exact scanRGo_ge xv cut a _ rh
    have fbig : ∀ j, rh1 < j → j ≤ rh → xv (a.getD j 0) > cut := by
      intro j h1 h2
      exact scanRGo_big xv cut a _ rh j (hrh1def ▸ h1) h2
    have fstopR : rh - (rh - lh1) < rh1 → xv (a.getD rh1 0) ≤ cut := by
      intro hlt
      rw [hrh1def] at hlt ⊢
      exact scanRGo_stop xv cut a _ rh hlt
    by_cases hsplit : lh1 < rh1
    · rw [if_pos hsplit]
      have hxlh1 : ¬ (xv (a.getD lh1 0) ≤ cut) := fstopL (by omega)
      have hxrh1 : xv (a.getD rh1 0) ≤ cut := fstopR (by omega)
      have hlh1len : lh1 < a.length := by omega
      have hrh1len : rh1 < a.length := by omega
      have hperm : List.Perm (swapL a lh1 rh1) a := swapL_perm a lh1 rh1 hsplit hrh1len
      have hlen : (swapL a lh1 rh1).length = a.length := swapL_length a lh1 rh1
      have hinvL' : ∀ i, i < lh1 + 1 → xv ((swapL a lh1 rh1).getD i 0) ≤ cut := by
        intro i hi
        rcases Nat.lt_or_ge i lh1 with hlt | hge
        · rw [swapL_getD_other a lh1 rh1 i (by omega) (by omega)]
          rcases Nat.lt_or_ge i lh with h2 | h2
          · exact hinvL i h2
          · exact fsmall i h2 hlt
        · have hieq : i = lh1 := by omega
          subst hieq
          rw [swapL_getD_left a lh1 rh1 hlh1len (by omega)]
          exact hxrh1
      have hinvR' : ∀ j, rh1 - 1 < j → j < (swapL a lh1 rh1).length →
          xv ((swapL a lh1 rh1).getD j 0) > cut := by
        intro j h1 h2
        rw [hlen] at h2
        rcases Nat.lt_or_ge j (rh1 + 1) with hlt | hge
        · have hjeq : j = rh1 := by omega
          subst hjeq
          rw [swapL_getD_right a lh1 rh1 hrh1len]
          omega
        · rw [swapL_getD_other a lh1 rh1 j (by omega) (by omega)]
          rcases Nat.lt_or_ge rh j with h3 | h3
          · exact hinvR j h3 h2
          · exact fbig j (by omega) (by omega)
      have happly := ih (swapL a lh1 rh1) (lh1 + 1) (rh1 - 1)
        (by omega) (by omega) (by rw [hlen]; omega) (by rw [hlen]; omega) hinvL' hinvR'
      obtain ⟨c1, c2, c3, c4, c5⟩ := happly
      rw [hlen] at c1 c3
      refine ⟨c1, c2.trans hperm, c3, c4, ?_⟩
      intro j hj hjl
      exact c5 j hj (by rw [hlen]; exact hjl)
    · rw [if_neg hsplit]
      have hlh1len : lh1 < a.length := by omega
      refine ⟨rfl, List.Perm.refl a, hlh1len, ?_, ?_⟩
      · intro i hi
        have hi' : i < lh1 := hi
        rcases Nat.lt_or_ge i lh with h2 | h2
        · exact hinvL i h2
        · exact fsmall i h2 hi'
      · intro j hj hjl
        have hj' : lh1 < j := hj
        rcases Nat.lt_or_ge rh lh with hc | hc
        · have hz : rh - lh = 0 := by omega
          have h1 : lh1 = lh := by
            rw [hlh1def]
            show scanLGo xv cut a (rh - lh) lh = lh
            rw [hz]
            rfl
          exact hinvR j (by omega) hjl
        · have h1 : lh1 ≤ rh := by omega
          have h3 : rh1 = lh1 := by omega
          rcases Nat.lt_or_ge rh j with h4 | h4
          · exact hinvR j h4 hjl
          · exact fbig j (by omega) (by omega)

theorem misc_partitionIndices_spec (xv : Nat → Int) (cut : Int) (a : List Nat) (h : a ≠ []) :
    List.Perm (misc_partitionIndices xv cut a).2 a ∧
    (misc_partitionIndices xv cut a).1 ≤ a.length ∧
    (∀ i, i < (misc_partitionIndices xv cut a).1 →
      xv ((misc_partitionIndices xv cut a).2.getD i 0) ≤ cut) ∧
    (∀ i, (misc_partitionIndices xv cut a).1 ≤ i → i < a.length →
      xv ((misc_partitionIndices xv cut a).2.getD i 0) > cut) := by
  have hne : ¬ (a.length = 0) := by
    intro hc
    exact h (List.length_eq_zero.mp hc)
  obtain ⟨c1, c2, c3, c4, c5⟩ :=
    hoareGo_correct xv cut (a.length - 1) a 0 (a.length - 1)
      (by omega) (by omega) (by omega) (by omega)
      (by intro i hi; omega)
      (by intro j hj hjl; omega)
  have hunfold : misc_partitionIndices xv cut a =
      (if xv ((hoareGo xv cut (a.length - 1) a 0 (a.length - 1)).1.getD
          (hoareGo xv cut (a.length - 1) a 0 (a.length - 1)).2 0) ≤ cut then
        (hoareGo xv cut (a.length - 1) a 0 (a.length - 1)).2 + 1
      else (hoareGo xv cut (a.length - 1) a 0 (a.length - 1)).2,
      (hoareGo xv cut (a.length - 1) a 0 (a.length - 1)).1) := by
    unfold misc_partitionIndices
    rw [if_neg hne]
  rw [hunfold]
  by_cases hcond : xv ((hoareGo xv cut (a.length - 1) a 0 (a.length - 1)).1.getD
      (hoareGo xv cut (a.length - 1) a 0 (a.length - 1)).2 0) ≤ cut
  · rw [if_pos hcond]
    refine ⟨c2, by omega, ?_, ?_⟩
    · intro i hi
      have hi' : i < (hoareGo xv cut (a.length - 1) a 0 (a.length - 1)).2 + 1 := hi
      rcases Nat.lt_or_ge i (hoareGo xv cut (a.length - 1) a 0 (a.length - 1)).2 with h2 | h2
      · exact c4 i h2
      · have : i = (hoareGo xv cut (a.length - 1) a 0 (a.length - 1)).2 := by omega
        rw [this]
        exact hcond
    · intro i hi hil
      have hi' : (hoareGo xv cut (a.length - 1) a 0 (a.length - 1)).2 + 1 ≤ i := hi
      exact c5 i (by omega) hil
  · rw [if_neg hcond]
    refine ⟨c2, by omega, ?_, ?_⟩
    · intro i hi
      exact c4 i hi
    · intro i hi hil
      have hi' : (hoareGo xv cut (a.length - 1) a 0 (a.length - 1)).2 ≤ i := hi
      rcases Nat.eq_or_lt_of_le hi' with h2 | h2
      · rw [← h2]
        exact not_le.mp hcond
      · exact c5 i h2 hil

theorem getNumBottomNodes_eq_length (t : Node) :
    t.getNumBottomNodes = (fillBottomVector t).length := by
  induction t with
  | leaf sl v => rfl
  | branch sl v rule l r ihl ihr =>
    simp [Node.getNumBottomNodes, fillBottomVector, ihl, ihr]

theorem getNumNotBottomNodes_eq_length (t : Node) :
    t.getNumNotBottomNodes = (fillNotBottomVector t).length := by
  induction t with
  | leaf sl v => rfl
  | branch sl v rule l r ihl ihr =>
    by_cases hb : l.isBottom && r.isBottom
    · have hl : l.getNumNotBottomNodes = 0 := by
        cases l with
        | leaf _ _ => rfl
        | branch _ _ _ _ _ => simp [Node.isBottom] at hb
      have hr : r.getNumNotBottomNodes = 0 := by
        cases r with
        | leaf _ _ => rfl
        | branch _ _ _ _ _ => simp [Node.isBottom] at hb
      simp [Node.getNumNotBottomNodes, fillNotBottomVector, hb, hl, hr]
    · simp [Node.getNumNotBottomNodes, fillNotBottomVector, hb, ihl, ihr]
      omega

theorem getNumNoGrandNodes_eq_length (t : Node) :
    t.getNumNoGrandNodes = (fillNoGrandVector t).length := by
  induction t with
  | leaf sl v => rfl
  | branch sl v rule l r ihl ihr =>
    by_cases hb : l.isBottom && r.isBottom
    · simp [Node.getNumNoGrandNodes, fillNoGrandVector, hb]
    · simp [Node.getNumNoGrandNodes, fillNoGrandVector, hb, ihl, ihr]

theorem getNumSwappableNodes_eq_length (t : Node) :
    t.getNumSwappableNodes = (fillSwappableVector t).length := by
  induction t with
  | leaf sl v => rfl
  | branch sl v rule l r ihl ihr =>
    by_cases hb : l.isBottom && r.isBottom
    · simp [Node.getNumSwappableNodes, fillSwappableVector, hb]
    · by_cases hs : (l.isBottom || l.childrenAreBottom) && (r.isBottom || r.childrenAreBottom)
      · simp [Node.getNumSwappableNodes, fillSwappableVector, hb, hs]
      · simp [Node.getNumSwappableNodes, fillSwappableVector, hb, hs, ihl, ihr]
        omega

theorem findBottomNode_eq_goesRightDescent (fit : BARTFit) (t : Node) (xt : Nat → Nat)
    (h : noCategoricalRules fit t = true) :
    t.findBottomNode fit xt = goesRightDescent fit t xt := by
  induction t with
  | leaf sl v => rfl
  | branch sl v rule l r ihl ihr =>
    simp only [noCategoricalRules, Bool.and_eq_true, decide_eq_true_eq] at h
    obtain ⟨⟨hv, hl⟩, hr⟩ := h
    have hgr : rule.goesRight fit xt =
        decide ((xt rule.variableIndex.toNat : Int) > rule.splitIndex) := by
      unfold Rule.goesRight
      rw [if_neg hv]
    simp only [Node.findBottomNode, goesRightDescent, hgr]
    by_cases hc : (xt rule.variableIndex.toNat : Int) > rule.splitIndex
    · simp [hc, ihr hr]
    · simp [hc, ihl hl]

theorem clearObservations_slice (t : Node) : t.clearObservations.slice = (0, 0) := by
  cases t with
  | leaf sl v => rfl
  | branch sl v rule l r => rfl

theorem clearObservations_tiles (t : Node) : tiles t.clearObservations := by
  induction t with
  | leaf sl v => trivial
  | branch sl v rule l r ihl ihr =>
    refine ⟨ihl, ihr, ?_, ?_⟩
    · rw [clearObservations_slice l, clearObservations_slice r]
      rfl
    · intro h
      exact absurd h (by omega)

theorem seg_length (arr : List Nat) (s l : Nat) (h : s + l ≤ arr.length) :
    ((arr.drop s).take l).length = l := by
  simp only [List.length_take, List.length_drop]
  omega

theorem writeSlice_perm (arr : List Nat) (s : Nat) (seg : List Nat)
    (hp : List.Perm seg ((arr.drop s).take seg.length)) :
    List.Perm (writeSlice arr s seg) arr := by
  have hsplit : arr = arr.take s ++ (arr.drop s).take seg.length ++ (arr.drop s).drop seg.length := by
    rw [List.append_assoc, List.take_append_drop, List.take_append_drop]
  have hdrop : arr.drop (s + seg.length) = (arr.drop s).drop seg.length := by
    rw [List.drop_drop]
  unfold writeSlice
  rw [hdrop]
  conv_rhs => rw [hsplit]
  exact List.Perm.append (List.Perm.append (List.Perm.refl _) hp) (List.Perm.refl _)

theorem partition_if_spec (fit : BARTFit) (rule : Rule) (isTop : Bool) (seg : List Nat)
    (hne : seg ≠ [])
    (htop : isTop = true → List.Perm seg (List.range seg.length)) :
    (if isTop then partitionRange fit rule seg else partitionIndices fit rule seg).1 ≤ seg.length ∧
    List.Perm (if isTop then partitionRange fit rule seg
      else partitionIndices fit rule seg).2 seg := by
  cases isTop with
  | false =>
    simp only [Bool.false_eq_true, if_false]
    obtain ⟨c1, c2, _, _⟩ :=
      misc_partitionIndices_spec (xColumn fit rule) rule.splitIndex seg hne
    exact ⟨c2, c1⟩
  | true =>
    simp only [if_true]
    have hlen : seg.length ≠ 0 := by
      intro hc
      exact hne (List.length_eq_zero.mp hc)
    have hrne : List.range seg.length ≠ [] := by
      intro hc
      have h2 := congrArg List.length hc
      simp at h2
      exact hne h2
    obtain ⟨c1, c2, _, _⟩ :=
      misc_partitionIndices_spec (xColumn fit rule) rule.splitIndex (List.range seg.length) hrne
    constructor
    · show (misc_partitionIndices (xColumn fit rule) rule.splitIndex (List.range seg.length)).1 ≤ _
      simpa using c2
    · show List.Perm (misc_partitionIndices (xColumn fit rule) rule.splitIndex
        (List.range seg.length)).2 seg
      have hseg : List.Perm (List.range seg.length) seg := (htop rfl).symm
      exact c1.trans hseg

theorem addObservationsToChildrenGo_spec (fit : BARTFit) :
    ∀ (t : Node) (isTop : Bool) (s l : Nat) (arr : List Nat),
      (0 < l → s + l ≤ arr.length) →
      (isTop = true → s = 0 ∧ l = arr.length ∧ List.Perm arr (List.range arr.length)) →
      (addObservationsToChildrenGo fit isTop t s l arr).1.slice = (s, l) ∧
      tiles (addObservationsToChildrenGo fit isTop t s l arr).1 ∧
      (addObservationsToChildrenGo fit isTop t s l arr).2.length = arr.length ∧
      List.Perm (addObservationsToChildrenGo fit isTop t s l arr).2 arr := by
  intro t
  induction t with
  | leaf sl vars =>
    intro isTop s l arr hbound htop
    exact ⟨rfl, trivial, rfl, List.Perm.refl arr⟩
  | branch sl vars rule a b iha ihb =>
    intro isTop s l arr hbound htop
    by_cases h0 : 0 < l
    · have hseglen : ((arr.drop s).take l).length = l := seg_length arr s l (hbound h0)
      have hsegne : (arr.drop s).take l ≠ [] := by
        intro hc
        rw [hc] at hseglen
        simp at hseglen
        omega
      have htopseg : isTop = true →
          List.Perm ((arr.drop s).take l) (List.range ((arr.drop s).take l).length) := by
        intro hT
        obtain ⟨hs0, hl, hperm⟩ := htop hT
        subst hs0
        subst hl
        simpa using hperm
      simp only [addObservationsToChildrenGo, if_pos h0]
      generalize hgen : (if isTop then partitionRange fit rule ((arr.drop s).take l)
        else partitionIndices fit rule ((arr.drop s).take l)) = pr
      obtain ⟨hk, hpseg⟩ := partition_if_spec fit rule isTop ((arr.drop s).take l) hsegne htopseg
      rw [hgen] at hk hpseg
      rw [hseglen] at hk
      have hpr2len : pr.2.length = l := hpseg.length_eq.trans hseglen
      have harr1perm : List.Perm (writeSlice arr s pr.2) arr := by
        apply writeSlice_perm
        rw [hpr2len]
        exact hpseg
      have harr1len : (writeSlice arr s pr.2).length = arr.length := harr1perm.length_eq
      obtain ⟨ra1s, ra1t, ra2len, ra2perm⟩ := iha false s pr.1 (writeSlice arr s pr.2)
        (by intro _; rw [harr1len]; have := hbound h0; omega)
        (by intro hc; simp at hc)
      obtain ⟨rb1s, rb1t, rb2len, rb2perm⟩ := ihb false (s + pr.1) (l - pr.1)
        ((addObservationsToChildrenGo fit false a s pr.1 (writeSlice arr s pr.2)).2)
        (by intro _; rw [ra2len, harr1len]; have := hbound h0; omega)
        (by intro hc; simp at hc)
      refine ⟨rfl, ⟨ra1t, rb1t, ?_, ?_⟩, ?_, ?_⟩
      · rw [ra1s, rb1s]
        show pr.1 + (l - pr.1) = l
        omega
      · intro _
        rw [ra1s, rb1s]
        exact ⟨rfl, rfl⟩
      · exact rb2len.trans (ra2len.trans harr1len)
      · exact rb2perm.trans (ra2perm.trans harr1perm)
    · have hunfold : addObservationsToChildrenGo fit isTop (.branch sl vars rule a b) s l arr =
          (.branch (s, l) vars rule a.clearObservations b.clearObservations, arr) := by
        simp only [addObservationsToChildrenGo, if_neg h0]
      rw [hunfold]
      refine ⟨rfl, ⟨clearObservations_tiles a, clearObservations_tiles b, ?_, ?_⟩, rfl,
        List.Perm.refl arr⟩
      · rw [clearObservations_slice a, clearObservations_slice b]
        show 0 + 0 = l
        omega
      · intro hc
        exact absurd hc h0

theorem seg_append (arr : List Nat) (s k m : Nat) :
    (arr.drop s).take k ++ (arr.drop (s + k)).take m = (arr.drop s).take (k + m) := by
  rw [List.take_add, List.drop_drop]

theorem mem_posList (p : Nat) (s l : Nat) : p ∈ posList (s, l) ↔ s ≤ p ∧ p < s + l := by
  simp only [posList, List.mem_map, List.mem_range]
  constructor
  · rintro ⟨i, hi, rfl⟩
    omega
  · rintro ⟨h1, h2⟩
    exact ⟨p - s, by omega, by omega⟩

theorem tiles_contained : ∀ t : Node, tiles t → contained t := by
  intro t
  induction t with
  | leaf sl v => intro _; trivial
  | branch sl v rule a b iha ihb =>
    intro ht
    obtain ⟨hta, htb, hsum, hstart⟩ := ht
    refine ⟨?_, ?_, iha hta, ihb htb⟩
    · intro p hp
      rw [mem_posList] at hp ⊢
      have hl : 0 < sl.2 := by omega
      obtain ⟨ha1, _⟩ := hstart hl
      omega
    · intro p hp
      rw [mem_posList] at hp ⊢
      have hl : 0 < sl.2 := by omega
      obtain ⟨ha1, hb1⟩ := hstart hl
      omega

theorem leafContents_zero : ∀ t : Node, tiles t → t.slice.2 = 0 →
    ∀ arr : List Nat, leafContents t arr = [] := by
  intro t
  induction t with
  | leaf sl v =>
    intro _ hz arr
    have hz2 : sl.2 = 0 := hz
    simp [leafContents, leafSlices, hz2]
  | branch sl v rule a b iha ihb =>
    intro ht hz arr
    have hz2 : sl.2 = 0 := hz
    obtain ⟨hta, htb, hsum, _⟩ := ht
    have hca : leafContents a arr = [] := iha hta (by omega) arr
    have hcb : leafContents b arr = [] := ihb htb (by omega) arr
    simp only [leafContents, leafSlices, List.map_append, List.flatten_append] at hca hcb ⊢
    rw [hca, hcb]
    rfl

theorem tiles_leafContents : ∀ (t : Node) (arr : List Nat), tiles t →
    leafContents t arr = (arr.drop t.slice.1).take t.slice.2 := by
  intro t
  induction t with
  | leaf sl v =>
    intro arr _
    simp [leafContents, leafSlices, Node.slice]
  | branch sl v rule a b iha ihb =>
    intro arr ht
    obtain ⟨hta, htb, hsum, hstart⟩ := ht
    simp only [Node.slice]
    by_cases hl : 0 < sl.2
    · obtain ⟨ha1, hb1⟩ := hstart hl
      have hca := iha arr hta
      have hcb := ihb arr htb
      simp only [leafContents, leafSlices, List.map_append, List.flatten_append] at hca hcb ⊢
      rw [hca, hcb, ha1, hb1, ← hsum]
      exact seg_append arr sl.1 a.slice.2 b.slice.2
    · have hz : sl.2 = 0 := by omega
      have hc := leafContents_zero (.branch sl v rule a b) ⟨hta, htb, hsum, hstart⟩ hz arr
      rw [hc, hz]
      simp

theorem split_spec (fit : BARTFit) (rule : Rule) (exL exR : Bool) (isTop : Bool) (t : Node)
    (arr : List Nat) (t2 : Node) (arr2 : List Nat)
    (hbound : 0 < t.slice.2 → t.slice.1 + t.slice.2 ≤ arr.length)
    (htop : isTop = true → t.slice.1 = 0 ∧ t.slice.2 = arr.length ∧
      List.Perm arr (List.range arr.length))
    (h : Node.split fit isTop t rule exL exR arr = some (t2, arr2)) :
    t2.slice = t.slice ∧ tiles t2 ∧ arr2.length = arr.length ∧ List.Perm arr2 arr := by
  by_cases hv : rule.variableIndex < 0
  · simp [Node.split, hv] at h
  · simp only [Node.split, if_neg hv, Node.addObservationsToChildren, Node.slice,
      Option.some.injEq] at h
    obtain ⟨c1, c2, c3, c4⟩ := addObservationsToChildrenGo_spec fit
      (Node.branch t.slice t.variablesAvailableForSplit rule
        (.leaf (0, 0) (if exL then t.variablesAvailableForSplit.set rule.variableIndex.toNat false
          else t.variablesAvailableForSplit))
        (.leaf (0, 0) (if exR then t.variablesAvailableForSplit.set rule.variableIndex.toNat false
          else t.variablesAvailableForSplit)))
      isTop t.slice.1 t.slice.2 arr hbound htop
    have hfst := congrArg Prod.fst h
    have hsnd := congrArg Prod.snd h
    simp only at hfst hsnd
    rw [← hfst, ← hsnd]
    exact ⟨c1, c2, c3, c4⟩

theorem splitAtPath_spec (fit : BARTFit) (rule : Rule) (exL exR : Bool) :
    ∀ (path : List Bool) (t : Node) (isTop : Bool) (arr : List Nat) (t2 : Node) (arr2 : List Nat),
      tiles t →
      (0 < t.slice.2 → t.slice.1 + t.slice.2 ≤ arr.length) →
      (isTop = true → t.slice.1 = 0 ∧ t.slice.2 = arr.length ∧
        List.Perm arr (List.range arr.length)) →
      splitAtPath fit rule exL exR isTop t path arr = some (t2, arr2) →
      t2.slice = t.slice ∧ tiles t2 ∧ arr2.length = arr.length ∧ List.Perm arr2 arr := by
  intro path
  induction path with
  | nil =>
    intro t isTop arr t2 arr2 htiles hbound htop h
    have h2 : Node.split fit isTop t rule exL exR arr = some (t2, arr2) := by
      cases t with
      | leaf sl v => simpa [splitAtPath] using h
      | branch sl v rule0 a b => simpa [splitAtPath] using h
    exact split_spec fit rule exL exR isTop t arr t2 arr2 hbound htop h2
  | cons d rest ih =>
    intro t isTop arr t2 arr2 htiles hbound htop h
    cases t with
    | leaf sl v => simp [splitAtPath] at h
    | branch sl v rule0 a b =>
      obtain ⟨hta, htb, hsum, hstart⟩ := htiles
      have hbound2 : 0 < sl.2 → sl.1 + sl.2 ≤ arr.length := hbound
      cases d with
      | true =>
        simp only [splitAtPath, Option.map_eq_some'] at h
        obtain ⟨rb, hrb, hmk⟩ := h
        have hchildbound : 0 < b.slice.2 → b.slice.1 + b.slice.2 ≤ arr.length := by
          intro hpos
          have hl : 0 < sl.2 := by omega
          obtain ⟨ha1, hb1⟩ := hstart hl
          have := hbound2 hl
          omega
        obtain ⟨d1, d2, d3, d4⟩ := ih b false arr rb.1 rb.2 htb hchildbound
          (by intro hc; simp at hc) (by rw [← hrb])
        have hfst := congrArg Prod.fst hmk
        have hsnd := congrArg Prod.snd hmk
        simp only at hfst hsnd
        rw [← hfst, ← hsnd]
        refine ⟨rfl, ⟨hta, d2, ?_, ?_⟩, d3, d4⟩
        · show a.slice.2 + rb.1.slice.2 = sl.2
          rw [d1]
          exact hsum
        · intro hl
          obtain ⟨ha1, hb1⟩ := hstart hl
          exact ⟨ha1, by rw [d1]; exact hb1⟩
      | false =>
        simp only [splitAtPath, Option.map_eq_some'] at h
        obtain ⟨ra, hra, hmk⟩ := h
        have hchildbound : 0 < a.slice.2 → a.slice.1 + a.slice.2 ≤ arr.length := by
          intro hpos
          have hl : 0 < sl.2 := by omega
          obtain ⟨ha1, hb1⟩ := hstart hl
          have := hbound2 hl
          omega
        obtain ⟨d1, d2, d3, d4⟩ := ih a false arr ra.1 ra.2 hta hchildbound
          (by intro hc; simp at hc) (by rw [← hra])
        have hfst := congrArg Prod.fst hmk
        have hsnd := congrArg Prod.snd hmk
        simp only at hfst hsnd
        rw [← hfst, ← hsnd]
        refine ⟨rfl, ⟨d2, htb, ?_, ?_⟩, d3, d4⟩
        · show ra.1.slice.2 + b.slice.2 = sl.2
          rw [d1]
          exact hsum
        · intro hl
          obtain ⟨ha1, hb1⟩ := hstart hl
          refine ⟨by rw [d1]; exact ha1, ?_⟩
          show b.slice.1 = sl.1 + ra.1.slice.2
          rw [d1]
          exact hb1

theorem orphanAtPath_spec :
    ∀ (path : List Bool) (t : Node) (t2 : Node),
      tiles t → orphanAtPath t path = some t2 → t2.slice = t.slice ∧ tiles t2 := by
  intro path
  induction path with
  | nil =>
    intro t t2 htiles h
    cases t with
    | leaf sl v => simp [orphanAtPath, Node.orphanChildren] at h
    | branch sl v rule a b =>
      simp only [orphanAtPath, Node.orphanChildren, Option.some.injEq] at h
      rw [← h]
      exact ⟨rfl, trivial⟩
  | cons d rest ih =>
    intro t t2 htiles h
    cases t with
    | leaf sl v => simp [orphanAtPath] at h
    | branch sl v rule a b =>
      obtain ⟨hta, htb, hsum, hstart⟩ := htiles
      cases d with
      | true =>
        simp only [orphanAtPath, Option.map_eq_some'] at h
        obtain ⟨b2, hb2, hmk⟩ := h
        obtain ⟨d1, d2⟩ := ih b b2 htb hb2
        rw [← hmk]
        refine ⟨rfl, hta, d2, ?_, ?_⟩
        · show a.slice.2 + b2.slice.2 = sl.2
          rw [d1]
          exact hsum
        · intro hl
          obtain ⟨ha1, hb1⟩ := hstart hl
          exact ⟨ha1, by rw [d1]; exact hb1⟩
      | false =>
        simp only [orphanAtPath, Option.map_eq_some'] at h
        obtain ⟨a2, ha2, hmk⟩ := h
        obtain ⟨d1, d2⟩ := ih a a2 hta ha2
        rw [← hmk]
        refine ⟨rfl, d2, htb, ?_, ?_⟩
        · show a2.slice.2 + b.slice.2 = sl.2
          rw [d1]
          exact hsum
        · intro hl
          obtain ⟨ha1, hb1⟩ := hstart hl
          refine ⟨by rw [d1]; exact ha1, ?_⟩
          show b.slice.1 = sl.1 + a2.slice.2
          rw [d1]
          exact hb1

theorem runTreeOps_inv (fit : BARTFit) :
    ∀ (ops : List TreeOp) (st st2 : Node × List Nat),
      tiles st.1 → st.1.slice = (0, fit.numObservations) →
      st.2.length = fit.numObservations →
      List.Perm st.2 (List.range fit.numObservations) →
      runTreeOps fit ops st = some st2 →
      tiles st2.1 ∧ st2.1.slice = (0, fit.numObservations) ∧
      st2.2.length = fit.numObservations ∧
      List.Perm st2.2 (List.range fit.numObservations) := by
  intro ops
  induction ops with
  | nil =>
    intro st st2 h1 h2 h3 h4 h
    simp only [runTreeOps, Option.some.injEq] at h
    rw [← h]
    exact ⟨h1, h2, h3, h4⟩
  | cons op rest ih =>
    intro st st2 h1 h2 h3 h4 h
    cases hap : applyTreeOp fit st op with
    | none =>
      simp only [runTreeOps, hap] at h
      exact absurd h (by simp)
    | some st1 =>
      simp only [runTreeOps, hap] at h
      cases op with
      | split path rule exL exR =>
        have hap2 : splitAtPath fit rule exL exR true st.1 path st.2 = some (st1.1, st1.2) := by
          simpa [applyTreeOp] using hap
        obtain ⟨e1, e2, e3, e4⟩ := splitAtPath_spec fit rule exL exR path st.1 true st.2
          st1.1 st1.2 h1
          (by intro _
              rw [h2]
              show 0 + fit.numObservations ≤ st.2.length
              omega)
          (by intro _
              refine ⟨by rw [h2], ?_, ?_⟩
              · rw [h2]
                show fit.numObservations = st.2.length
                omega
              · rw [h3]
                exact h4)
          hap2
        exact ih st1 st2 e2 (by rw [e1, h2]) (by rw [e3, h3]) (e4.trans h4) h
      | orphan path =>
        simp only [applyTreeOp, Option.map_eq_some'] at hap
        obtain ⟨t1, hone, hmk⟩ := hap
        obtain ⟨e1, e2⟩ := orphanAtPath_spec path st.1 t1 h1 hone
        have hf := congrArg Prod.fst hmk
        have hs := congrArg Prod.snd hmk
        simp only at hf hs
        exact ih st1 st2 (by rw [← hf]; exact e2) (by rw [← hf, e1, h2])
          (by rw [← hs]; exact h3) (by rw [← hs]; exact h4) h

theorem mem_free_live (h : Heap) (p : Option Nat) (b : Nat) :
    b ∈ (h.free p).live → b ∈ h.live := by
  cases p with
  | none => exact fun hm => hm
  | some q => exact fun hm => Finset.mem_of_mem_erase hm

theorem not_mem_free_self (h : Heap) (b : Nat) : b ∉ (h.free (some b)).live :=
  Finset.not_mem_erase b h.live

theorem mem_cleanupData_live (d : DataPointers) (h : Heap) (b : Nat) :
    b ∈ (cleanupData d h).live → b ∈ h.live := by
  intro hm
  exact mem_free_live _ _ _ (mem_free_live _ _ _ (mem_free_live _ _ _ (mem_free_live _ _ _
    (mem_free_live _ _ _ (mem_free_live _ _ _ (mem_free_live _ _ _
      (mem_free_live _ _ _ hm)))))))

theorem cleanupData_kills (d : DataPointers) (h : Heap) (b : Nat)
    (hf : holdsPointer d b) : b ∉ (cleanupData d h).live := by
  intro hm
  unfold cleanupData at hm
  rcases hf with hy | hX | hXt | hw | ho | hto | hvt | hmc
  · rw [hy] at hm
    exact not_mem_free_self _ b hm
  · have hm2 := mem_free_live _ _ _ hm
    rw [hX] at hm2
    exact not_mem_free_self _ b hm2
  · have hm2 := mem_free_live _ _ _ (mem_free_live _ _ _ hm)
    rw [hXt] at hm2
    exact not_mem_free_self _ b hm2
  · have hm2 := mem_free_live _ _ _ (mem_free_live _ _ _ (mem_free_live _ _ _ hm))
    rw [hw] at hm2
    exact not_mem_free_self _ b hm2
  · have hm2 := mem_free_live _ _ _ (mem_free_live _ _ _ (mem_free_live _ _ _
      (mem_free_live _ _ _ hm)))
    rw [ho] at hm2
    exact not_mem_free_self _ b hm2
  · have hm2 := mem_free_live _ _ _ (mem_free_live _ _ _ (mem_free_live _ _ _
      (mem_free_live _ _ _ (mem_free_live _ _ _ hm))))
    rw [hto] at hm2
    exact not_mem_free_self _ b hm2
  · have hm2 := mem_free_live _ _ _ (mem_free_live _ _ _ (mem_free_live _ _ _
      (mem_free_live _ _ _ (mem_free_live _ _ _ (mem_free_live _ _ _ hm)))))
    rw [hvt] at hm2
    exact not_mem_free_self _ b hm2
  · have hm2 := mem_free_live _ _ _ (mem_free_live _ _ _ (mem_free_live _ _ _
      (mem_free_live _ _ _ (mem_free_live _ _ _ (mem_free_live _ _ _
        (mem_free_live _ _ _ hm))))))
    rw [hmc] at hm2
    exact not_mem_free_self _ b hm2

theorem cleanup_exit (h0 : Heap) (d : DataPointers) (h : Heap)
    (hinv : HInvData h0 d h) : ∀ b, h0.nextId ≤ b → b ∉ (cleanupData d h).live := by
  intro b hb hm
  have hm2 := mem_cleanupData_live d h b hm
  rcases hinv.2 b hm2 with ⟨_, hlt⟩ | ⟨_, hold⟩
  · omega
  · exact cleanupData_kills d h b hold hm

theorem hinvData_start (h0 : Heap) (d : DataPointers) (hwf : h0.wf) : HInvData h0 d h0 :=
  ⟨Nat.le_refl _, fun b hm => Or.inl ⟨hm, hwf b hm⟩⟩

theorem hinvData_mono (h0 : Heap) (d d' : DataPointers) (h : Heap)
    (hinv : HInvData h0 d h)
    (himp : ∀ b, holdsPointer d b → holdsPointer d' b) : HInvData h0 d' h :=
  ⟨hinv.1, fun b hm => (hinv.2 b hm).imp id (fun hp => ⟨hp.1, himp b hp.2⟩)⟩

theorem hinvData_alloc (h0 : Heap) (d d' : DataPointers) (h : Heap)
    (hinv : HInvData h0 d h)
    (himp : ∀ b, holdsPointer d b → holdsPointer d' b)
    (hnew : holdsPointer d' h.nextId) :
    HInvData h0 d' (h.alloc).2 := by
  refine ⟨?_, ?_⟩
  · have := hinv.1
    simp only [Heap.alloc]
    omega
  · intro b hm
    simp only [Heap.alloc, Finset.mem_insert] at hm
    rcases hm with rfl | hm
    · exact Or.inr ⟨hinv.1, hnew⟩
    · exact (hinv.2 b hm).imp id (fun hp => ⟨hp.1, himp b hp.2⟩)

theorem allocThenRead_hinv (h0 : Heap) (cond : Bool) (count : Nat)
    (set : Option Nat → DataPointers → DataPointers)
    (d : DataPointers) (h : Heap) (bs : List Nat)
    (hinv : HInvData h0 d h)
    (hpres : ∀ p b, holdsPointer d b → holdsPointer (set p d) b)
    (hnew : ∀ x, holdsPointer (set (some x) d) x) :
    HInvData h0 (exceptState (allocThenRead cond count set d h bs)).1
      (exceptState (allocThenRead cond count set d h bs)).2.1 := by
  unfold allocThenRead
  cases cond with
  | false =>
    exact hinvData_mono h0 d _ h hinv (fun b => hpres none b)
  | true =>
    cases hr : readNBytes count bs with
    | none =>
      show HInvData h0 (set (some h.nextId) d) ((h.alloc).2)
      exact hinvData_alloc h0 d _ h hinv (fun b => hpres _ b) (hnew _)
    | some pr =>
      obtain ⟨w, bs2⟩ := pr
      show HInvData h0 (set (some h.nextId) d) ((h.alloc).2)
      exact hinvData_alloc h0 d _ h hinv (fun b => hpres _ b) (hnew _)

theorem allocThenRead_ok (cond : Bool) (count : Nat)
    (set : Option Nat → DataPointers → DataPointers)
    (d : DataPointers) (h : Heap) (bs : List Nat)
    (d2 : DataPointers) (h2 : Heap) (bs2 : List Nat)
    (he : allocThenRead cond count set d h bs = .ok (d2, h2, bs2)) :
    d2 = set (some h.nextId) d ∨ d2 = set none d := by
  unfold allocThenRead at he
  cases cond with
  | false =>
    simp only [Bool.false_eq_true, if_false, Except.ok.injEq, Prod.mk.injEq] at he
    exact Or.inr he.1.symm
  | true =>
    simp only [if_true] at he
    cases hr : readNBytes count bs with
    | none =>
      rw [hr] at he
      simp at he
    | some pr =>
      obtain ⟨w, bsx⟩ := pr
      rw [hr] at he
      simp only [Except.ok.injEq, Prod.mk.injEq] at he
      exact Or.inl he.1.symm

theorem readThenAlloc_hinv (h0 : Heap) (count : Nat)
    (set : Option Nat → DataPointers → DataPointers)
    (d : DataPointers) (h : Heap) (bs : List Nat)
    (hinv : HInvData h0 d h)
    (hpres : ∀ p b, holdsPointer d b → holdsPointer (set p d) b)
    (hnew : ∀ x, holdsPointer (set (some x) d) x) :
    HInvData h0 (exceptState (readThenAlloc count set d h bs)).1
      (exceptState (readThenAlloc count set d h bs)).2.1 := by
  unfold readThenAlloc
  cases hr : readNBytes count bs with
  | none =>
    exact hinv
  | some pr =>
    obtain ⟨w, bs2⟩ := pr
    show HInvData h0 (set (some h.nextId) d) ((h.alloc).2)
    exact hinvData_alloc h0 d _ h hinv (fun b => hpres _ b) (hnew _)

theorem readThenAlloc_ok (count : Nat)
    (set : Option Nat → DataPointers → DataPointers)
    (d : DataPointers) (h : Heap) (bs : List Nat)
    (d2 : DataPointers) (h2 : Heap) (bs2 : List Nat)
    (he : readThenAlloc count set d h bs = .ok (d2, h2, bs2)) :
    d2 = set (some h.nextId) d := by
  unfold readThenAlloc at he
  cases hr : readNBytes count bs with
  | none =>
    rw [hr] at he
    simp at he
  | some pr =>
    obtain ⟨w, bsx⟩ := pr
    rw [hr] at he
    simp only [Except.ok.injEq, Prod.mk.injEq] at he
    exact he.1.symm

theorem readDataMaxNumCuts_hinv (h0 : Heap) (dataFlags : Nat) (d : DataPointers) (h : Heap)
    (bs : List Nat) (hinv : HInvData h0 d h)
    (hfmc : d.maxNumCuts = none) :
    HInvData h0 (exceptState (readDataMaxNumCuts dataFlags d h bs)).1
      (exceptState (readDataMaxNumCuts dataFlags d h bs)).2.1 := by
  unfold readDataMaxNumCuts
  have hbase := allocThenRead_hinv h0 (decide (dataFlags &&& 8 ≠ 0)) (4 * d.numPredictors) (fun p d2 => { d2 with maxNumCuts := p }) d h bs hinv
    (by
    intro p b hp
    rcases hp with hc|hc|hc|hc|hc|hc|hc|hc
    · exact Or.inl hc
    · exact Or.inr (Or.inl hc)
    · exact Or.inr (Or.inr (Or.inl hc))
    · exact Or.inr (Or.inr (Or.inr (Or.inl hc)))
    · exact Or.inr (Or.inr (Or.inr (Or.inr (Or.inl hc))))
    · exact Or.inr (Or.inr (Or.inr (Or.inr (Or.inr (Or.inl hc)))))
    · exact Or.inr (Or.inr (Or.inr (Or.inr (Or.inr (Or.inr (Or.inl hc))))))
    · simp [hfmc] at hc)
    (by
    intro x
    exact Or.inr (Or.inr (Or.inr (Or.inr (Or.inr (Or.inr (Or.inr (rfl))))))))
  exact hbase

theorem readDataVariableTypes_hinv (h0 : Heap) (dataFlags : Nat) (d : DataPointers) (h : Heap)
    (bs : List Nat) (hinv : HInvData h0 d h)
    (hfvt : d.variableTypes = none) (hfmc : d.maxNumCuts = none) :
    HInvData h0 (exceptState (readDataVariableTypes dataFlags d h bs)).1
      (exceptState (readDataVariableTypes dataFlags d h bs)).2.1 := by
  unfold readDataVariableTypes
  have hbase := readThenAlloc_hinv h0 (4 * d.numPredictors) (fun p d2 => { d2 with variableTypes := p }) d h bs hinv
    (by
    intro p b hp
    rcases hp with hc|hc|hc|hc|hc|hc|hc|hc
    · exact Or.inl hc
    · exact Or.inr (Or.inl hc)
    · exact Or.inr (Or.inr (Or.inl hc))
    · exact Or.inr (Or.inr (Or.inr (Or.inl hc)))
    · exact Or.inr (Or.inr (Or.inr (Or.inr (Or.inl hc))))
    · exact Or.inr (Or.inr (Or.inr (Or.inr (Or.inr (Or.inl hc)))))
    · simp [hfvt] at hc
    · exact Or.inr (Or.inr (Or.inr (Or.inr (Or.inr (Or.inr (Or.inr (hc))))))))
    (by
    intro x
    exact Or.inr (Or.inr (Or.inr (Or.inr (Or.inr (Or.inr (Or.inl rfl)))))))
  cases e : readThenAlloc (4 * d.numPredictors) (fun p d2 => { d2 with variableTypes := p }) d h bs with
  | error r =>
    rw [e] at hbase
    exact hbase
  | ok st =>
    obtain ⟨d2, h2, bs2⟩ := st
    rw [e] at hbase
    have hinv2 : HInvData h0 d2 h2 := hbase
    have hshape := readThenAlloc_ok (4 * d.numPredictors) (fun p d2 => { d2 with variableTypes := p }) d h bs d2 h2 bs2 e
    show HInvData h0 (exceptState (readDataMaxNumCuts dataFlags d2 h2 bs2)).1
      (exceptState (readDataMaxNumCuts dataFlags d2 h2 bs2)).2.1
    exact readDataMaxNumCuts_hinv h0 dataFlags d2 h2 bs2 hinv2 (by rw [hshape]; exact hfmc)

theorem readDataTestOffset_hinv (h0 : Heap) (dataFlags : Nat) (d : DataPointers) (h : Heap)
    (bs : List Nat) (hinv : HInvData h0 d h)
    (hfto : d.testOffset = none) (hfvt : d.variableTypes = none) (hfmc : d.maxNumCuts = none) :
    HInvData h0 (exceptState (readDataTestOffset dataFlags d h bs)).1
      (exceptState (readDataTestOffset dataFlags d h bs)).2.1 := by
  unfold readDataTestOffset
  have hbase := allocThenRead_hinv h0 (decide (dataFlags &&& 4 ≠ 0)) (8 * d.numTestObservations) (fun p d2 => { d2 with testOffset := p }) d h bs hinv
    (by
    intro p b hp
    rcases hp with hc|hc|hc|hc|hc|hc|hc|hc
    · exact Or.inl hc
    · exact Or.inr (Or.inl hc)
    · exact Or.inr (Or.inr (Or.inl hc))
    · exact Or.inr (Or.inr (Or.inr (Or.inl hc)))
    · exact Or.inr (Or.inr (Or.inr (Or.inr (Or.inl hc))))
    · simp [hfto] at hc
    · exact Or.inr (Or.inr (Or.inr (Or.inr (Or.inr (Or.inr (Or.inl hc))))))
    · exact Or.inr (Or.inr (Or.inr (Or.inr (Or.inr (Or.inr (Or.inr (hc))))))))
    (by
    intro x
    exact Or.inr (Or.inr (Or.inr (Or.inr (Or.inr (Or.inl rfl))))))
  cases e : allocThenRead (decide (dataFlags &&& 4 ≠ 0)) (8 * d.numTestObservations) (fun p d2 => { d2 with testOffset := p }) d h bs with
  | error r =>
    rw [e] at hbase
    exact hbase
  | ok st =>
    obtain ⟨d2, h2, bs2⟩ := st
    rw [e] at hbase
    have hinv2 : HInvData h0 d2 h2 := hbase
    have hshape := allocThenRead_ok (decide (dataFlags &&& 4 ≠ 0)) (8 * d.numTestObservations) (fun p d2 => { d2 with testOffset := p }) d h bs d2 h2 bs2 e
    show HInvData h0 (exceptState (readDataVariableTypes dataFlags d2 h2 bs2)).1
      (exceptState (readDataVariableTypes dataFlags d2 h2 bs2)).2.1
    rcases hshape with hs | hs
    · exact readDataVariableTypes_hinv h0 dataFlags d2 h2 bs2 hinv2 (by rw [hs]; exact hfvt) (by rw [hs]; exact hfmc)
    · exact readDataVariableTypes_hinv h0 dataFlags d2 h2 bs2 hinv2 (by rw [hs]; exact hfvt) (by rw [hs]; exact hfmc)

theorem readDataOffset_hinv (h0 : Heap) (dataFlags : Nat) (d : DataPointers) (h : Heap)
    (bs : List Nat) (hinv : HInvData h0 d h)
    (hfo : d.offset = none) (hfto : d.testOffset = none) (hfvt : d.variableTypes = none) (hfmc : d.maxNumCuts = none) :
    HInvData h0 (exceptState (readDataOffset dataFlags d h bs)).1
      (exceptState (readDataOffset dataFlags d h bs)).2.1 := by
  unfold readDataOffset
  have hbase := allocThenRead_hinv h0 (decide (dataFlags &&& 2 ≠ 0)) (8 * d.numObservations) (fun p d2 => { d2 with offset := p }) d h bs hinv
    (by
    intro p b hp
    rcases hp with hc|hc|hc|hc|hc|hc|hc|hc
    · exact Or.inl hc
    · exact Or.inr (Or.inl hc)
    · exact Or.inr (Or.inr (Or.inl hc))
    · exact Or.inr (Or.inr (Or.inr (Or.inl hc)))
    · simp [hfo] at hc
    · exact Or.inr (Or.inr (Or.inr (Or.inr (Or.inr (Or.inl hc)))))
    · exact Or.inr (Or.inr (Or.inr (Or.inr (Or.inr (Or.inr (Or.inl hc))))))
    · exact Or.inr (Or.inr (Or.inr (Or.inr (Or.inr (Or.inr (Or.inr (hc))))))))
    (by
    intro x
    exact Or.inr (Or.inr (Or.inr (Or.inr (Or.inl rfl)))))
  cases e : allocThenRead (decide (dataFlags &&& 2 ≠ 0)) (8 * d.numObservations) (fun p d2 => { d2 with offset := p }) d h bs with
  | error r =>
    rw [e] at hbase
    exact hbase
  | ok st =>
    obtain ⟨d2, h2, bs2⟩ := st
    rw [e] at hbase
    have hinv2 : HInvData h0 d2 h2 := hbase
    have hshape := allocThenRead_ok (decide (dataFlags &&& 2 ≠ 0)) (8 * d.numObservations) (fun p d2 => { d2 with offset := p }) d h bs d2 h2 bs2 e
    show HInvData h0 (exceptState (readDataTestOffset dataFlags d2 h2 bs2)).1
      (exceptState (readDataTestOffset dataFlags d2 h2 bs2)).2.1
    rcases hshape with hs | hs
    · exact readDataTestOffset_hinv h0 dataFlags d2 h2 bs2 hinv2 (by rw [hs]; exact hfto) (by rw [hs]; exact hfvt) (by rw [hs]; exact hfmc)
    · exact readDataTestOffset_hinv h0 dataFlags d2 h2 bs2 hinv2 (by rw [hs]; exact hfto) (by rw [hs]; exact hfvt) (by rw [hs]; exact hfmc)

theorem readDataWeights_hinv (h0 : Heap) (dataFlags : Nat) (d : DataPointers) (h : Heap)
    (bs : List Nat) (hinv : HInvData h0 d h)
    (hfw : d.weights = none) (hfo : d.offset = none) (hfto : d.testOffset = none) (hfvt : d.variableTypes = none) (hfmc : d.maxNumCuts = none) :
    HInvData h0 (exceptState (readDataWeights dataFlags d h bs)).1
      (exceptState (readDataWeights dataFlags d h bs)).2.1 := by
  unfold readDataWeights
  have hbase := allocThenRead_hinv h0 (decide (dataFlags &&& 1 ≠ 0)) (8 * d.numObservations) (fun p d2 => { d2 with weights := p }) d h bs hinv
    (by
    intro p b hp
    rcases hp with hc|hc|hc|hc|hc|hc|hc|hc
    · exact Or.inl hc
    · exact Or.inr (Or.inl hc)
    · exact Or.inr (Or.inr (Or.inl hc))
    · simp [hfw] at hc
    · exact Or.inr (Or.inr (Or.inr (Or.inr (Or.inl hc))))
    · exact Or.inr (Or.inr (Or.inr (Or.inr (Or.inr (Or.inl hc)))))
    · exact Or.inr (Or.inr (Or.inr (Or.inr (Or.inr (Or.inr (Or.inl hc))))))
    · exact Or.inr (Or.inr (Or.inr (Or.inr (Or.inr (Or.inr (Or.inr (hc))))))))
    (by
    intro x
    exact Or.inr (Or.inr (Or.inr (Or.inl rfl))))
  cases e : allocThenRead (decide (dataFlags &&& 1 ≠ 0)) (8 * d.numObservations) (fun p d2 => { d2 with weights := p }) d h bs with
  | error r =>
    rw [e] at hbase
    exact hbase
  | ok st =>
    obtain ⟨d2, h2, bs2⟩ := st
    rw [e] at hbase
    have hinv2 : HInvData h0 d2 h2 := hbase
    have hshape := allocThenRead_ok (decide (dataFlags &&& 1 ≠ 0)) (8 * d.numObservations) (fun p d2 => { d2 with weights := p }) d h bs d2 h2 bs2 e
    show HInvData h0 (exceptState (readDataOffset dataFlags d2 h2 bs2)).1
      (exceptState (readDataOffset dataFlags d2 h2 bs2)).2.1
    rcases hshape with hs | hs
    · exact readDataOffset_hinv h0 dataFlags d2 h2 bs2 hinv2 (by rw [hs]; exact hfo) (by rw [hs]; exact hfto) (by rw [hs]; exact hfvt) (by rw [hs]; exact hfmc)
    · exact readDataOffset_hinv h0 dataFlags d2 h2 bs2 hinv2 (by rw [hs]; exact hfo) (by rw [hs]; exact hfto) (by rw [hs]; exact hfvt) (by rw [hs]; exact hfmc)

theorem readDataXTest_hinv (h0 : Heap) (dataFlags : Nat) (d : DataPointers) (h : Heap)
    (bs : List Nat) (hinv : HInvData h0 d h)
    (hfXt : d.X_test = none) (hfw : d.weights = none) (hfo : d.offset = none) (hfto : d.testOffset = none) (hfvt : d.variableTypes = none) (hfmc : d.maxNumCuts = none) :
    HInvData h0 (exceptState (readDataXTest dataFlags d h bs)).1
      (exceptState (readDataXTest dataFlags d h bs)).2.1 := by
  unfold readDataXTest
  have hbase := allocThenRead_hinv h0 (decide (0 < d.numTestObservations)) (8 * (d.numTestObservations * d.numPredictors)) (fun p d2 => { d2 with X_test := p }) d h bs hinv
    (by
    intro p b hp
    rcases hp with hc|hc|hc|hc|hc|hc|hc|hc
    · exact Or.inl hc
    · exact Or.inr (Or.inl hc)
    · simp [hfXt] at hc
    · exact Or.inr (Or.inr (Or.inr (Or.inl hc)))
    · exact Or.inr (Or.inr (Or.inr (Or.inr (Or.inl hc))))
    · exact Or.inr (Or.inr (Or.inr (Or.inr (Or.inr (Or.inl hc)))))
    · exact Or.inr (Or.inr (Or.inr (Or.inr (Or.inr (Or.inr (Or.inl hc))))))
    · exact Or.inr (Or.inr (Or.inr (Or.inr (Or.inr (Or.inr (Or.inr (hc))))))))
    (by
    intro x
    exact Or.inr (Or.inr (Or.inl rfl)))
  cases e : allocThenRead (decide (0 < d.numTestObservations)) (8 * (d.numTestObservations * d.numPredictors)) (fun p d2 => { d2 with X_test := p }) d h bs with
  | error r =>
    rw [e] at hbase
    exact hbase
  | ok st =>
    obtain ⟨d2, h2, bs2⟩ := st
    rw [e] at hbase
    have hinv2 : HInvData h0 d2 h2 := hbase
    have hshape := allocThenRead_ok (decide (0 < d.numTestObservations)) (8 * (d.numTestObservations * d.numPredictors)) (fun p d2 => { d2 with X_test := p }) d h bs d2 h2 bs2 e
    show HInvData h0 (exceptState (readDataWeights dataFlags d2 h2 bs2)).1
      (exceptState (readDataWeights dataFlags d2 h2 bs2)).2.1
    rcases hshape with hs | hs
    · exact readDataWeights_hinv h0 dataFlags d2 h2 bs2 hinv2 (by rw [hs]; exact hfw) (by rw [hs]; exact hfo) (by rw [hs]; exact hfto) (by rw [hs]; exact hfvt) (by rw [hs]; exact hfmc)
    · exact readDataWeights_hinv h0 dataFlags d2 h2 bs2 hinv2 (by rw [hs]; exact hfw) (by rw [hs]; exact hfo) (by rw [hs]; exact hfto) (by rw [hs]; exact hfvt) (by rw [hs]; exact hfmc)

theorem readDataX_hinv (h0 : Heap) (dataFlags : Nat) (d : DataPointers) (h : Heap)
    (bs : List Nat) (hinv : HInvData h0 d h)
    (hfX : d.X = none) (hfXt : d.X_test = none) (hfw : d.weights = none) (hfo : d.offset = none) (hfto : d.testOffset = none) (hfvt : d.variableTypes = none) (hfmc : d.maxNumCuts = none) :
    HInvData h0 (exceptState (readDataX dataFlags d h bs)).1
      (exceptState (readDataX dataFlags d h bs)).2.1 := by
  unfold readDataX
  have hbase := allocThenRead_hinv h0 true (8 * (d.numObservations * d.numPredictors)) (fun p d2 => { d2 with X := p }) d h bs hinv
    (by
    intro p b hp
    rcases hp with hc|hc|hc|hc|hc|hc|hc|hc
    · exact Or.inl hc
    · simp [hfX] at hc
    · exact Or.inr (Or.inr (Or.inl hc))
    · exact Or.inr (Or.inr (Or.inr (Or.inl hc)))
    · exact Or.inr (Or.inr (Or.inr (Or.inr (Or.inl hc))))
    · exact Or.inr (Or.inr (Or.inr (Or.inr (Or.inr (Or.inl hc)))))
    · exact Or.inr (Or.inr (Or.inr (Or.inr (Or.inr (Or.inr (Or.inl hc))))))
    · exact Or.inr (Or.inr (Or.inr (Or.inr (Or.inr (Or.inr (Or.inr (hc))))))))
    (by
    intro x
    exact Or.inr (Or.inl rfl))
  cases e : allocThenRead true (8 * (d.numObservations * d.numPredictors)) (fun p d2 => { d2 with X := p }) d h bs with
  | error r =>
    rw [e] at hbase
    exact hbase
  | ok st =>
    obtain ⟨d2, h2, bs2⟩ := st
    rw [e] at hbase
    have hinv2 : HInvData h0 d2 h2 := hbase
    have hshape := allocThenRead_ok true (8 * (d.numObservations * d.numPredictors)) (fun p d2 => { d2 with X := p }) d h bs d2 h2 bs2 e
    show HInvData h0 (exceptState (readDataXTest dataFlags d2 h2 bs2)).1
      (exceptState (readDataXTest dataFlags d2 h2 bs2)).2.1
    rcases hshape with hs | hs
    · exact readDataXTest_hinv h0 dataFlags d2 h2 bs2 hinv2 (by rw [hs]; exact hfXt) (by rw [hs]; exact hfw) (by rw [hs]; exact hfo) (by rw [hs]; exact hfto) (by rw [hs]; exact hfvt) (by rw [hs]; exact hfmc)
    · exact readDataXTest_hinv h0 dataFlags d2 h2 bs2 hinv2 (by rw [hs]; exact hfXt) (by rw [hs]; exact hfw) (by rw [hs]; exact hfo) (by rw [hs]; exact hfto) (by rw [hs]; exact hfvt) (by rw [hs]; exact hfmc)

theorem readDataY_hinv (h0 : Heap) (dataFlags : Nat) (d : DataPointers) (h : Heap)
    (bs : List Nat) (hinv : HInvData h0 d h)
    (hfy : d.y = none) (hfX : d.X = none) (hfXt : d.X_test = none) (hfw : d.weights = none) (hfo : d.offset = none) (hfto : d.testOffset = none) (hfvt : d.variableTypes = none) (hfmc : d.maxNumCuts = none) :
    HInvData h0 (exceptState (readDataY dataFlags d h bs)).1
      (exceptState (readDataY dataFlags d h bs)).2.1 := by
  unfold readDataY
  have hbase := allocThenRead_hinv h0 true (8 * d.numObservations) (fun p d2 => { d2 with y := p }) d h bs hinv
    (by
    intro p b hp
    rcases hp with hc|hc|hc|hc|hc|hc|hc|hc
    · simp [hfy] at hc
    · exact Or.inr (Or.inl hc)
    · exact Or.inr (Or.inr (Or.inl hc))
    · exact Or.inr (Or.inr (Or.inr (Or.inl hc)))
    · exact Or.inr (Or.inr (Or.inr (Or.inr (Or.inl hc))))
    · exact Or.inr (Or.inr (Or.inr (Or.inr (Or.inr (Or.inl hc)))))
    · exact Or.inr (Or.inr (Or.inr (Or.inr (Or.inr (Or.inr (Or.inl hc))))))
    · exact Or.inr (Or.inr (Or.inr (Or.inr (Or.inr (Or.inr (Or.inr (hc))))))))
    (by
    intro x
    exact Or.inl rfl)
  cases e : allocThenRead true (8 * d.numObservations) (fun p d2 => { d2 with y := p }) d h bs with
  | error r =>
    rw [e] at hbase
    exact hbase
  | ok st =>
    obtain ⟨d2, h2, bs2⟩ := st
    rw [e] at hbase
    have hinv2 : HInvData h0 d2 h2 := hbase
    have hshape := allocThenRead_ok true (8 * d.numObservations) (fun p d2 => { d2 with y := p }) d h bs d2 h2 bs2 e
    show HInvData h0 (exceptState (readDataX dataFlags d2 h2 bs2)).1
      (exceptState (readDataX dataFlags d2 h2 bs2)).2.1
    rcases hshape with hs | hs
    · exact readDataX_hinv h0 dataFlags d2 h2 bs2 hinv2 (by rw [hs]; exact hfX) (by rw [hs]; exact hfXt) (by rw [hs]; exact hfw) (by rw [hs]; exact hfo) (by rw [hs]; exact hfto) (by rw [hs]; exact hfvt) (by rw [hs]; exact hfmc)
    · exact readDataX_hinv h0 dataFlags d2 h2 bs2 hinv2 (by rw [hs]; exact hfX) (by rw [hs]; exact hfXt) (by rw [hs]; exact hfw) (by rw [hs]; exact hfo) (by rw [hs]; exact hfto) (by rw [hs]; exact hfvt) (by rw [hs]; exact hfmc)

theorem readDataGo_hinv (h0 : Heap) (data : DataPointers) (bs : List Nat) (h : Heap)
    (hinv : HInvData h0 data h) (hcl : data.cleared) :
    HInvData h0 (exceptState (readDataGo data bs h)).1
      (exceptState (readDataGo data bs h)).2.1 := by
  obtain ⟨hfy, hfX, hfXt, hfw, hfo, hfto, hfvt, hfmc⟩ := hcl
  unfold readDataGo
  split
  · exact hinv
  · split
    · exact hinv
    · split
      · exact hinv
      · split
        · exact hinv
        · split
          · exact hinv
          · exact readDataY_hinv h0 _ _ h _ hinv hfy hfX hfXt hfw hfo hfto hfvt hfmc

/-- C6.  If `readData` fails at any field when called with a
value-initialized (all-null) `Data` out-parameter and a well-formed heap,
then before returning `false` it frees every array it heap-allocated for
the `Data` aggregate during that call: no block whose id was produced
during the call is still live in the resulting heap. -/
theorem readData_failure_frees_allocations (data : DataPointers) (bs : List Nat)
    (h0 : Heap) (d2 : DataPointers) (h2 : Heap) (bs2 : List Nat)
    (hwf : h0.wf) (hcl : data.cleared)
    (hrun : readData data bs h0 = (false, d2, h2, bs2)) :
    ∀ b, h0.nextId ≤ b → b ∉ h2.live := by
  unfold readData at hrun
  cases e : readDataGo data bs h0 with
  | error r =>
    rw [e] at hrun
    have hrun2 : ((false : Bool), r.1, cleanupData r.1 r.2.1, r.2.2) = (false, d2, h2, bs2) := hrun
    have hinv := readDataGo_hinv h0 data bs h0 (hinvData_start h0 data hwf) hcl
    rw [e] at hinv
    have hinv2 : HInvData h0 r.1 r.2.1 := hinv
    have hh : cleanupData r.1 r.2.1 = h2 := congrArg (fun t => t.2.2.1) hrun2
    intro b hb
    rw [← hh]
    exact cleanup_exit h0 r.1 r.2.1 hinv2 b hb
  | ok r =>
    rw [e] at hrun
    have hrun2 : ((true : Bool), r.1, r.2.1, r.2.2) = (false, d2, h2, bs2) := hrun
    have hbad : (true : Bool) = false := congrArg (fun t => t.1) hrun2
    exact absurd hbad (by decide)

/-- Concrete refutation of the all-null part of the C6 sentence: a
stream holding exactly the five scalar fields and no bytes for `y` makes
`readData` fail (the `y` array was allocated, its read came up short),
yet the out-parameter's `y` field still holds the dangling pointer — the
cleanup frees the blocks but never nulls the fields. -/
theorem readData_failure_leaves_y_set :
    (readData ⟨0, 0, 0, 0, none, none, none, none, none, none, none, none⟩
      [0, 0, 0, 0, 1, 0, 0, 0, 0, 0, 0, 0, 1, 0, 0, 0, 0, 0, 0, 0,
        0, 0, 0, 0, 0, 0, 0, 0, 0, 0, 0, 0, 0, 0, 0, 0] ⟨0, ∅⟩).1 = false ∧
    (readData ⟨0, 0, 0, 0, none, none, none, none, none, none, none, none⟩
      [0, 0, 0, 0, 1, 0, 0, 0, 0, 0, 0, 0, 1, 0, 0, 0, 0, 0, 0, 0,
        0, 0, 0, 0, 0, 0, 0, 0, 0, 0, 0, 0, 0, 0, 0, 0] ⟨0, ∅⟩).2.1.y ≠ none := by
  decide

/-- The C6 theorem applied at a concrete failing decode: the truncated
stream ends after the scalars, the decode fails, and the one block
allocated during the call (the `y` array, id 0) is not live afterwards. -/
theorem readData_failure_frees_allocations_witness :
    Heap.wf ⟨0, ∅⟩ ∧
    DataPointers.cleared ⟨0, 0, 0, 0, none, none, none, none, none, none, none, none⟩ ∧
    (0 : Nat) ∉ (⟨1, (∅ : Finset Nat)⟩ : Heap).live := by
  refine ⟨fun b hb => absurd hb (Finset.not_mem_empty b),
    ⟨rfl, rfl, rfl, rfl, rfl, rfl, rfl, rfl⟩, ?_⟩
  exact readData_failure_frees_allocations
    ⟨0, 0, 0, 0, none, none, none, none, none, none, none, none⟩
    [0, 0, 0, 0, 1, 0, 0, 0, 0, 0, 0, 0, 1, 0, 0, 0, 0, 0, 0, 0,
      0, 0, 0, 0, 0, 0, 0, 0, 0, 0, 0, 0, 0, 0, 0, 0]
    ⟨0, ∅⟩ ⟨1, 1, 0, 0, some 0, none, none, none, none, none, none, none⟩ ⟨1, ∅⟩ []
    (fun b hb => absurd hb (Finset.not_mem_empty b))
    ⟨rfl, rfl, rfl, rfl, rfl, rfl, rfl, rfl⟩
    (by decide) 0 (Nat.le_refl 0)

theorem readNBytes_append (l r : List Nat) : readNBytes l.length (l ++ r) = some (l, r) := by
  simp [readNBytes]

theorem ext_bio_readNChars_append (t rest : List Nat) (ht : t.length = 4) :
    ext_bio_readNChars 4 (t ++ rest) = some (t, rest) := by
  unfold ext_bio_readNChars
  rw [← ht, readNBytes_append]

theorem readModelChsq_badTag (m : Model) (h : Heap) (tag rest : List Nat)
    (hlen : tag.length = 4) (hne : tag ≠ chsqTag) :
    readModelChsq m h (tag ++ rest) = (some .EILSEQ, m, cleanupModel m h, rest) := by
  unfold readModelChsq
  split
  · rename_i heq
    rw [ext_bio_readNChars_append tag rest hlen] at heq
    simp at heq
  · rename_i tag3 bs10 heq
    rw [ext_bio_readNChars_append tag rest hlen] at heq
    simp only [Option.some.injEq, Prod.mk.injEq] at heq
    obtain ⟨ht, hb⟩ := heq
    subst ht; subst hb
    rw [if_pos hne]

theorem ext_bio_readDouble_append (d rest : List Nat) (hd : d.length = 8) :
    ext_bio_readDouble (d ++ rest) = some (fromBytesLE d, rest) := by
  unfold ext_bio_readDouble
  rw [← hd, readNBytes_append]
  rfl

theorem readModelCgm_goodTag (m : Model) (h : Heap) (d5 d6 rest : List Nat)
    (h5 : d5.length = 8) (h6 : d6.length = 8) :
    readModelCgm m h (cgmTag ++ (d5 ++ (d6 ++ rest))) =
      readModelNrml { m with treePrior := some h.nextId }
        ⟨h.nextId + 1, insert h.nextId h.live⟩ rest := by
  unfold readModelCgm
  split
  · rename_i heq
    rw [ext_bio_readNChars_append cgmTag _ rfl] at heq
    simp at heq
  · rename_i tag1 bs5 heq
    rw [ext_bio_readNChars_append cgmTag _ rfl] at heq
    simp only [Option.some.injEq, Prod.mk.injEq] at heq
    obtain ⟨ht, hb⟩ := heq
    subst ht; subst hb
    rw [if_neg (by simp)]
    split
    · rename_i heq2
      rw [ext_bio_readDouble_append d5 _ h5] at heq2
      simp at heq2
    · rename_i v5 bs6 heq2
      rw [ext_bio_readDouble_append d5 _ h5] at heq2
      simp only [Option.some.injEq, Prod.mk.injEq] at heq2
      obtain ⟨hv5, hb6⟩ := heq2
      subst hb6
      split
      · rename_i heq3
        rw [ext_bio_readDouble_append d6 _ h6] at heq3
        simp at heq3
      · rename_i v6 bs7 heq3
        rw [ext_bio_readDouble_append d6 _ h6] at heq3
        simp only [Option.some.injEq, Prod.mk.injEq] at heq3
        obtain ⟨hv6, hb7⟩ := heq3
        subst hb7
        rfl

theorem readModelCgm_badTag (m : Model) (h : Heap) (tag rest : List Nat)
    (hlen : tag.length = 4) (hne : tag ≠ cgmTag) :
    readModelCgm m h (tag ++ rest) = (some .EILSEQ, m, cleanupModel m h, rest) := by
  unfold readModelCgm
  split
  · rename_i heq
    rw [ext_bio_readNChars_append tag rest hlen] at heq
    simp at heq
  · rename_i tag1 bs5 heq
    rw [ext_bio_readNChars_append tag rest hlen] at heq
    simp only [Option.some.injEq, Prod.mk.injEq] at heq
    obtain ⟨ht, hb⟩ := heq
    subst ht; subst hb
    rw [if_pos hne]

theorem readModelNrml_badTag (m : Model) (h : Heap) (tag rest : List Nat)
    (hlen : tag.length = 4) (hne : tag ≠ nrmlTag) :
    readModelNrml m h (tag ++ rest) = (some .EILSEQ, m, cleanupModel m h, rest) := by
  unfold readModelNrml
  split
  · rename_i heq
    rw [ext_bio_readNChars_append tag rest hlen] at heq
    simp at heq
  · rename_i tag2 bs8 heq
    rw [ext_bio_readNChars_append tag rest hlen] at heq
    simp only [Option.some.injEq, Prod.mk.injEq] at heq
    obtain ⟨ht, hb⟩ := heq
    subst ht; subst hb
    rw [if_pos hne]

theorem readModelNrml_goodTag (m : Model) (h : Heap) (d7 rest : List Nat)
    (h7 : d7.length = 8) :
    readModelNrml m h (nrmlTag ++ (d7 ++ rest)) =
      readModelChsq { m with endNodeModel := some h.nextId }
        ⟨h.nextId + 1, insert h.nextId h.live⟩ rest := by
  unfold readModelNrml
  split
  · rename_i heq
    rw [ext_bio_readNChars_append nrmlTag _ rfl] at heq
    simp at heq
  · rename_i tag2 bs8 heq
    rw [ext_bio_readNChars_append nrmlTag _ rfl] at heq
    simp only [Option.some.injEq, Prod.mk.injEq] at heq
    obtain ⟨ht, hb⟩ := heq
    subst ht; subst hb
    rw [if_neg (by simp)]
    split
    · rename_i heq2
      rw [ext_bio_readDouble_append d7 _ h7] at heq2
      simp at heq2
    · rename_i v7 bs9 heq2
      rw [ext_bio_readDouble_append d7 _ h7] at heq2
      simp only [Option.some.injEq, Prod.mk.injEq] at heq2
      obtain ⟨hv7, hb9⟩ := heq2
      subst hb9
      rfl

theorem readModel_scalars (m : Model) (h : Heap) (d1 d2 d3 d4 rest : List Nat)
    (h1 : d1.length = 8) (h2 : d2.length = 8) (h3 : d3.length = 8) (h4 : d4.length = 8) :
    readModel m (d1 ++ (d2 ++ (d3 ++ (d4 ++ rest)))) h =
      readModelCgm { m with birthOrDeathProbability := fromBytesLE d1, swapProbability := fromBytesLE d2, changeProbability := fromBytesLE d3, birthProbability := fromBytesLE d4 } h rest := by
  unfold readModel
  split
  · rename_i heq
    rw [ext_bio_readDouble_append d1 _ h1] at heq
    simp at heq
  · rename_i v1 bs1 heq
    rw [ext_bio_readDouble_append d1 _ h1] at heq
    simp only [Option.some.injEq, Prod.mk.injEq] at heq
    obtain ⟨hv, hb⟩ := heq
    subst hv; subst hb
    split
    · rename_i heq
      rw [ext_bio_readDouble_append d2 _ h2] at heq
      simp at heq
    · rename_i v2 bs2 heq
      rw [ext_bio_readDouble_append d2 _ h2] at heq
      simp only [Option.some.injEq, Prod.mk.injEq] at heq
      obtain ⟨hv, hb⟩ := heq
      subst hv; subst hb
      split
      · rename_i heq
        rw [ext_bio_readDouble_append d3 _ h3] at heq
        simp at heq
      · rename_i v3 bs3 heq
        rw [ext_bio_readDouble_append d3 _ h3] at heq
        simp only [Option.some.injEq, Prod.mk.injEq] at heq
        obtain ⟨hv, hb⟩ := heq
        subst hv; subst hb
        split
        · rename_i heq
          rw [ext_bio_readDouble_append d4 _ h4] at heq
          simp at heq
        · rename_i v4 bs4 heq
          rw [ext_bio_readDouble_append d4 _ h4] at heq
          simp only [Option.some.injEq, Prod.mk.injEq] at heq
          obtain ⟨hv, hb⟩ := heq
          subst hv; subst hb
          rfl

theorem mem_cleanupModel_live (m : Model) (h : Heap) (b : Nat) :
    b ∈ (cleanupModel m h).live → b ∈ h.live := by
  intro hm
  exact mem_free_live _ _ _ (mem_free_live _ _ _ (mem_free_live _ _ _ hm))

theorem cleanupModel_kills (m : Model) (h : Heap) (b : Nat)
    (hp : m.treePrior = some b ∨ m.endNodeModel = some b ∨ m.sigmaSqPrior = some b) :
    b ∉ (cleanupModel m h).live := by
  intro hm
  rcases hp with htp | hen | hsq
  · unfold cleanupModel at hm
    rw [htp] at hm
    exact not_mem_free_self _ b hm
  · unfold cleanupModel at hm
    have hm2 := mem_free_live _ _ _ hm
    rw [hen] at hm2
    exact not_mem_free_self _ b hm2
  · unfold cleanupModel at hm
    have hm2 := mem_free_live _ _ _ (mem_free_live _ _ _ hm)
    rw [hsq] at hm2
    exact not_mem_free_self _ b hm2

/-- C5.  If, while decoding the Model aggregate from a well-formed heap,
the 4 bytes read immediately before any of the three prior-parameter
sections differ from the expected tag (`"cgm "`, `"nrml"`, `"chsq"`
respectively), then `readModel` returns the invalid-sequence error kind
`EILSEQ`, consumes no bytes past the mismatching tag (the remaining
stream is exactly what followed it), and frees the prior objects
allocated so far in the call, leaving no block allocated during the call
live. -/
theorem readModel_tag_mismatch (m : Model) (h0 : Heap) (hwf : h0.wf)
    (d1 d2 d3 d4 d5 d6 d7 tag rest : List Nat)
    (h1 : d1.length = 8) (h2 : d2.length = 8) (h3 : d3.length = 8) (h4 : d4.length = 8)
    (h5 : d5.length = 8) (h6 : d6.length = 8) (h7 : d7.length = 8)
    (htag : tag.length = 4) :
    (tag ≠ cgmTag →
      (readModel m (d1 ++ (d2 ++ (d3 ++ (d4 ++ (tag ++ rest))))) h0).1 = some .EILSEQ ∧
      (readModel m (d1 ++ (d2 ++ (d3 ++ (d4 ++ (tag ++ rest))))) h0).2.2.2 = rest ∧
      (∀ b, h0.nextId ≤ b →
        b ∉ (readModel m (d1 ++ (d2 ++ (d3 ++ (d4 ++ (tag ++ rest))))) h0).2.2.1.live)) ∧
    (tag ≠ nrmlTag →
      (readModel m (d1 ++ (d2 ++ (d3 ++ (d4 ++ (cgmTag ++ (d5 ++ (d6 ++ (tag ++ rest)))))))) h0).1 = some .EILSEQ ∧
      (readModel m (d1 ++ (d2 ++ (d3 ++ (d4 ++ (cgmTag ++ (d5 ++ (d6 ++ (tag ++ rest)))))))) h0).2.2.2 = rest ∧
      (∀ b, h0.nextId ≤ b →
        b ∉ (readModel m (d1 ++ (d2 ++ (d3 ++ (d4 ++ (cgmTag ++ (d5 ++ (d6 ++ (tag ++ rest)))))))) h0).2.2.1.live)) ∧
    (tag ≠ chsqTag →
      (readModel m (d1 ++ (d2 ++ (d3 ++ (d4 ++ (cgmTag ++ (d5 ++ (d6 ++ (nrmlTag ++ (d7 ++ (tag ++ rest)))))))))) h0).1 = some .EILSEQ ∧
      (readModel m (d1 ++ (d2 ++ (d3 ++ (d4 ++ (cgmTag ++ (d5 ++ (d6 ++ (nrmlTag ++ (d7 ++ (tag ++ rest)))))))))) h0).2.2.2 = rest ∧
      (∀ b, h0.nextId ≤ b →
        b ∉ (readModel m (d1 ++ (d2 ++ (d3 ++ (d4 ++ (cgmTag ++ (d5 ++ (d6 ++ (nrmlTag ++ (d7 ++ (tag ++ rest)))))))))) h0).2.2.1.live)) := by
  refine ⟨fun hc => ?_, fun hn => ?_, fun hq => ?_⟩
  · rw [readModel_scalars m h0 d1 d2 d3 d4 (tag ++ rest) h1 h2 h3 h4,
      readModelCgm_badTag _ h0 tag rest htag hc]
    refine ⟨rfl, rfl, ?_⟩
    intro b hb hm
    have hm2 := mem_cleanupModel_live _ _ _ hm
    exact absurd (hwf b hm2) (by omega)
  · rw [readModel_scalars m h0 d1 d2 d3 d4 (cgmTag ++ (d5 ++ (d6 ++ (tag ++ rest)))) h1 h2 h3 h4,
      readModelCgm_goodTag _ h0 d5 d6 (tag ++ rest) h5 h6,
      readModelNrml_badTag _ _ tag rest htag hn]
    refine ⟨rfl, rfl, ?_⟩
    intro b hb hm
    by_cases hbe : b = h0.nextId
    · subst hbe
      exact cleanupModel_kills _ _ _ (Or.inl rfl) hm
    · have hm2 := mem_cleanupModel_live _ _ _ hm
      have hm3 : b ∈ insert h0.nextId h0.live := hm2
      rcases Finset.mem_insert.mp hm3 with he | hmem
      · exact hbe he
      · exact absurd (hwf b hmem) (by omega)
  · rw [readModel_scalars m h0 d1 d2 d3 d4
        (cgmTag ++ (d5 ++ (d6 ++ (nrmlTag ++ (d7 ++ (tag ++ rest)))))) h1 h2 h3 h4,
      readModelCgm_goodTag _ h0 d5 d6 (nrmlTag ++ (d7 ++ (tag ++ rest))) h5 h6,
      readModelNrml_goodTag _ _ d7 (tag ++ rest) h7,
      readModelChsq_badTag _ _ tag rest htag hq]
    refine ⟨rfl, rfl, ?_⟩
    intro b hb hm
    by_cases hbe : b = h0.nextId
    · subst hbe
      exact cleanupModel_kills _ _ _ (Or.inl rfl) hm
    · by_cases hbe2 : b = h0.nextId + 1
      · subst hbe2
        exact cleanupModel_kills _ _ _ (Or.inr (Or.inl rfl)) hm
      · have hm2 := mem_cleanupModel_live _ _ _ hm
        have hm3 : b ∈ insert (h0.nextId + 1) (insert h0.nextId h0.live) := hm2
        rcases Finset.mem_insert.mp hm3 with he | hmem
        · exact hbe2 he
        · rcases Finset.mem_insert.mp hmem with he | hmem2
          · exact hbe he
          · exact absurd (hwf b hmem2) (by omega)

/-- The C5 theorem applied at a concrete stream whose `"chsq"` tag slot
holds four zero bytes: the decode fails with `EILSEQ` and neither of the
two prior objects allocated during the call (blocks 0 and 1) is live
afterwards. -/
theorem readModel_tag_mismatch_witness :
    ([0, 0, 0, 0] : List Nat) ≠ chsqTag ∧
    (readModel ⟨0, 0, 0, 0, none, none, none⟩
      ([0, 0, 0, 0, 0, 0, 0, 0] ++ ([0, 0, 0, 0, 0, 0, 0, 0] ++ ([0, 0, 0, 0, 0, 0, 0, 0] ++ ([0, 0, 0, 0, 0, 0, 0, 0] ++ (cgmTag ++ ([0, 0, 0, 0, 0, 0, 0, 0] ++ ([0, 0, 0, 0, 0, 0, 0, 0] ++ (nrmlTag ++ ([0, 0, 0, 0, 0, 0, 0, 0] ++ ([0, 0, 0, 0] ++ [])))))))))) ⟨0, ∅⟩).1 = some .EILSEQ ∧
    (0 : Nat) ∉ (readModel ⟨0, 0, 0, 0, none, none, none⟩
      ([0, 0, 0, 0, 0, 0, 0, 0] ++ ([0, 0, 0, 0, 0, 0, 0, 0] ++ ([0, 0, 0, 0, 0, 0, 0, 0] ++ ([0, 0, 0, 0, 0, 0, 0, 0] ++ (cgmTag ++ ([0, 0, 0, 0, 0, 0, 0, 0] ++ ([0, 0, 0, 0, 0, 0, 0, 0] ++ (nrmlTag ++ ([0, 0, 0, 0, 0, 0, 0, 0] ++ ([0, 0, 0, 0] ++ [])))))))))) ⟨0, ∅⟩).2.2.1.live ∧
    (1 : Nat) ∉ (readModel ⟨0, 0, 0, 0, none, none, none⟩
      ([0, 0, 0, 0, 0, 0, 0, 0] ++ ([0, 0, 0, 0, 0, 0, 0, 0] ++ ([0, 0, 0, 0, 0, 0, 0, 0] ++ ([0, 0, 0, 0, 0, 0, 0, 0] ++ (cgmTag ++ ([0, 0, 0, 0, 0, 0, 0, 0] ++ ([0, 0, 0, 0, 0, 0, 0, 0] ++ (nrmlTag ++ ([0, 0, 0, 0, 0, 0, 0, 0] ++ ([0, 0, 0, 0] ++ [])))))))))) ⟨0, ∅⟩).2.2.1.live := by
  refine ⟨by decide, ?_, ?_, ?_⟩
  · exact (((readModel_tag_mismatch ⟨0, 0, 0, 0, none, none, none⟩ ⟨0, ∅⟩
      (fun b hb => absurd hb (Finset.not_mem_empty b))
      [0, 0, 0, 0, 0, 0, 0, 0] [0, 0, 0, 0, 0, 0, 0, 0] [0, 0, 0, 0, 0, 0, 0, 0] [0, 0, 0, 0, 0, 0, 0, 0]
      [0, 0, 0, 0, 0, 0, 0, 0] [0, 0, 0, 0, 0, 0, 0, 0] [0, 0, 0, 0, 0, 0, 0, 0] [0, 0, 0, 0] []
      rfl rfl rfl rfl rfl rfl rfl rfl)).2.2 (by decide)).1
  · exact (((readModel_tag_mismatch ⟨0, 0, 0, 0, none, none, none⟩ ⟨0, ∅⟩
      (fun b hb => absurd hb (Finset.not_mem_empty b))
      [0, 0, 0, 0, 0, 0, 0, 0] [0, 0, 0, 0, 0, 0, 0, 0] [0, 0, 0, 0, 0, 0, 0, 0] [0, 0, 0, 0, 0, 0, 0, 0]
      [0, 0, 0, 0, 0, 0, 0, 0] [0, 0, 0, 0, 0, 0, 0, 0] [0, 0, 0, 0, 0, 0, 0, 0] [0, 0, 0, 0] []
      rfl rfl rfl rfl rfl rfl rfl rfl)).2.2 (by decide)).2.2 0 (Nat.le_refl 0)
  · exact (((readModel_tag_mismatch ⟨0, 0, 0, 0, none, none, none⟩ ⟨0, ∅⟩
      (fun b hb => absurd hb (Finset.not_mem_empty b))
      [0, 0, 0, 0, 0, 0, 0, 0] [0, 0, 0, 0, 0, 0, 0, 0] [0, 0, 0, 0, 0, 0, 0, 0] [0, 0, 0, 0, 0, 0, 0, 0]
      [0, 0, 0, 0, 0, 0, 0, 0] [0, 0, 0, 0, 0, 0, 0, 0] [0, 0, 0, 0, 0, 0, 0, 0] [0, 0, 0, 0] []
      rfl rfl rfl rfl rfl rfl rfl rfl)).2.2 (by decide)).2.2 1 (by decide)

/-- C8.  When `readControl` succeeds, the `Control` out-parameter's
`callback` and `callbackData` fields are reset to null: they are never
reconstructed from values in the byte stream.  (On a failing read the
reset is skipped -- the `goto` chain jumps past it -- so the sentence's
"whether it succeeds or fails" does not hold; see the counterexample.) -/
theorem readControl_success_resets_callback (control c2 : Control) (bs bs2 : List Nat)
    (hrun : readControl control bs = (true, c2, bs2)) :
    c2.callback = none ∧ c2.callbackData = none := by
  unfold readControl at hrun
  split at hrun
  · exact Bool.noConfusion (congrArg (fun t => t.1) hrun)
  ·
    split at hrun
    · exact Bool.noConfusion (congrArg (fun t => t.1) hrun)
    ·
      split at hrun
      · exact Bool.noConfusion (congrArg (fun t => t.1) hrun)
      ·
        split at hrun
        · exact Bool.noConfusion (congrArg (fun t => t.1) hrun)
        ·
          split at hrun
          · exact Bool.noConfusion (congrArg (fun t => t.1) hrun)
          ·
            split at hrun
            · exact Bool.noConfusion (congrArg (fun t => t.1) hrun)
            ·
              split at hrun
              · exact Bool.noConfusion (congrArg (fun t => t.1) hrun)
              ·
                split at hrun
                · exact Bool.noConfusion (congrArg (fun t => t.1) hrun)
                ·
                  have hcb : (none : Option Nat) = c2.callback := congrArg (fun t => t.2.1.callback) hrun
                  have hcd : (none : Option Nat) = c2.callbackData := congrArg (fun t => t.2.1.callbackData) hrun
                  exact ⟨hcb.symm, hcd.symm⟩

/-- Concrete refutation of the failure half of the C8 sentence: on an
empty stream `readControl` fails at the first read and returns the
out-parameter exactly as it came in, `callback = some 7` included -- the
reset assignments sit after all the reads and the failure `goto` jumps
past them. -/
theorem readControl_failure_keeps_callback :
    (readControl ⟨false, false, false, false, 0, 0, 0, 0, 0, 0, 0, some 7, some 7⟩ []).1 = false ∧
    (readControl ⟨false, false, false, false, 0, 0, 0, 0, 0, 0, 0, some 7, some 7⟩ []).2.1.callback ≠ none := by
  decide

/-- The C8 theorem applied to a concrete 48-zero-byte stream (a full
serialized `Control`): the decode succeeds and both callback fields of
the result are null even though the out-parameter came in with
`some 7` in each. -/
theorem readControl_success_resets_callback_witness :
    (⟨false, false, false, false, 0, 0, 0, 0, 0, 0, 0, none, none⟩ : Control).callback = none ∧
    (⟨false, false, false, false, 0, 0, 0, 0, 0, 0, 0, none, none⟩ : Control).callbackData = none :=
  readControl_success_resets_callback
    ⟨false, false, false, false, 0, 0, 0, 0, 0, 0, 0, some 7, some 7⟩
    ⟨false, false, false, false, 0, 0, 0, 0, 0, 0, 0, none, none⟩
    [0, 0, 0, 0, 0, 0, 0, 0, 0, 0, 0, 0, 0, 0, 0, 0, 0, 0, 0, 0, 0, 0, 0, 0,
      0, 0, 0, 0, 0, 0, 0, 0, 0, 0, 0, 0, 0, 0, 0, 0, 0, 0, 0, 0, 0, 0, 0, 0] []
    (by decide)

/-- C3.  The round-trip fails before it can start for a `Data` whose
optional `maxNumCuts` is absent: `writeData` writes a flag word
declaring the field absent, but at `binaryIO.cpp` line 127 it then
writes `data.maxNumCuts[0..numPredictors)` unconditionally -- a `NULL`
dereference, modelled as `none` -- so the encode of such a value is
undefined and `decode (encode x) = x` cannot hold for every admissible
`Data`. -/
theorem writeData_null_maxNumCuts :
    writeData ⟨1, 1, 0, 0, some [0], some [0], none, none, none, none, some [.ORDINAL], none⟩ =
      none := by
  decide

/-- C1.  Partition correctness as the code implements it: for every
non-empty index slice and every rule, each partitioner entry point
(`partitionIndices` for an existing permutation, `partitionRange` for
the top node's contiguous range) returns a count `k` with the slice
afterwards a permutation of its contents before (for the range entry
point: of `0..n-1`, since it rewrites the buffer first), every index in
positions `[0,k)` having predictor value `<= rule.splitIndex` (the
ordinal goes-left test), and every index in `[k,n)` having predictor
value `> rule.splitIndex`.  The comparison is always the ordinal one:
the claim's "the rule's goesRight test" only coincides with it when the
rule's variable is not categorical (see the counterexample). -/
theorem partition_ordinal_spec (fit : BARTFit) (rule : Rule) (indices : List Nat)
    (h : indices ≠ []) :
    (List.Perm (partitionIndices fit rule indices).2 indices ∧
      (partitionIndices fit rule indices).1 ≤ indices.length ∧
      (∀ i, i < (partitionIndices fit rule indices).1 →
        xColumn fit rule ((partitionIndices fit rule indices).2.getD i 0) ≤ rule.splitIndex) ∧
      (∀ i, (partitionIndices fit rule indices).1 ≤ i → i < indices.length →
        xColumn fit rule ((partitionIndices fit rule indices).2.getD i 0) > rule.splitIndex)) ∧
    (List.Perm (partitionRange fit rule indices).2 (List.range indices.length) ∧
      (partitionRange fit rule indices).1 ≤ indices.length ∧
      (∀ i, i < (partitionRange fit rule indices).1 →
        xColumn fit rule ((partitionRange fit rule indices).2.getD i 0) ≤ rule.splitIndex) ∧
      (∀ i, (partitionRange fit rule indices).1 ≤ i → i < indices.length →
        xColumn fit rule ((partitionRange fit rule indices).2.getD i 0) > rule.splitIndex)) := by
  constructor
  · exact misc_partitionIndices_spec (xColumn fit rule) rule.splitIndex indices h
  · have hr : List.range indices.length ≠ [] := by
      intro hc
      apply h
      have := congrArg List.length hc
      simp only [List.length_range, List.length_nil] at this
      exact List.length_eq_zero.mp this
    obtain ⟨a1, a2, a3, a4⟩ :=
      misc_partitionIndices_spec (xColumn fit rule) rule.splitIndex (List.range indices.length) hr
    rw [List.length_range] at a2 a4
    exact ⟨a1, a2, a3, a4⟩

/-- Concrete refutation of the goesRight phrasing of the C1 sentence:
for a categorical rule with bitmask 1 over a single observation of
category 0, the partitioner counts the observation in the goes-left
prefix (`k = 1`, by the ordinal comparison `0 <= 1`), yet `goesRight`
holds of it (category 0 is in the bitmask). -/
theorem partition_goesRight_counterexample :
    (partitionIndices ⟨1, 1, fun _ => .CATEGORICAL, fun _ _ => 0⟩ ⟨0, 1⟩ [0]).1 = 1 ∧
    (Rule.goesRight ⟨0, 1⟩ ⟨1, 1, fun _ => .CATEGORICAL, fun _ _ => 0⟩
      (fun v => (⟨1, 1, fun _ => .CATEGORICAL, fun _ _ => 0⟩ : BARTFit).x v
        ((partitionIndices ⟨1, 1, fun _ => .CATEGORICAL, fun _ _ => 0⟩ ⟨0, 1⟩ [0]).2.getD 0 0))) =
      true := by
  decide

/-- The C1 theorem applied to a concrete 4-observation column: the count
is positive and the first entry of the reordered slice has value at or
below the cut. -/
theorem partition_ordinal_spec_witness :
    (([0, 1, 2, 3] : List Nat) ≠ []) ∧ 0 < (partitionIndices ⟨4, 1, fun _ => .ORDINAL,
      fun _ i => [5, 1, 3, 0].getD i 0⟩ ⟨0, 2⟩ [0, 1, 2, 3]).1 ∧
    xColumn ⟨4, 1, fun _ => .ORDINAL, fun _ i => [5, 1, 3, 0].getD i 0⟩ ⟨0, 2⟩
      ((partitionIndices ⟨4, 1, fun _ => .ORDINAL, fun _ i => [5, 1, 3, 0].getD i 0⟩
        ⟨0, 2⟩ [0, 1, 2, 3]).2.getD 0 0) ≤ Rule.splitIndex ⟨0, 2⟩ :=
  ⟨by decide, by decide,
    (partition_ordinal_spec ⟨4, 1, fun _ => .ORDINAL, fun _ i => [5, 1, 3, 0].getD i 0⟩
      ⟨0, 2⟩ [0, 1, 2, 3] (by decide)).1.2.2.1 0 (by decide)⟩

/-- C2.  Tree-wide index coverage invariant: starting from a fresh tree
whose top node owns `[0, numObservations)`, after any finite sequence of
split and orphanChildren operations (with the induced repartitioning by
`addObservationsToChildren`), the concatenation of the bottom nodes'
observation-index slices is a permutation of `{0, ...,
numObservations - 1}` -- no index duplicated or dropped -- and every
node's slice covers only positions covered by its parent's slice. -/
theorem runTreeOps_leaf_coverage (fit : BARTFit) (ops : List TreeOp) (st2 : Node × List Nat)
    (hrun : runTreeOps fit ops (initialState fit) = some st2) :
    List.Perm (leafContents st2.1 st2.2) (List.range fit.numObservations) ∧ contained st2.1 := by
  obtain ⟨ht, hs, hl, hp⟩ := runTreeOps_inv fit ops (initialState fit) st2
    trivial rfl (by simp [initialState]) (by simp [initialState]) hrun
  constructor
  · have hlc := tiles_leafContents st2.1 st2.2 ht
    rw [hs] at hlc
    have hlc2 : leafContents st2.1 st2.2 = (st2.2.drop 0).take fit.numObservations := by
      rw [hlc]
    have htake : st2.2.take fit.numObservations = st2.2 := by
      rw [← hl]
      exact List.take_length st2.2
    rw [hlc2, List.drop_zero, htake]
    exact hp
  · exact tiles_contained st2.1 ht

/-- The C2 theorem applied to a concrete 4-observation fit after a
split of the top node, a split of its left child and an orphan undoing
the latter: the two leaf slices tile the buffer `[3, 1, 2, 0]`, a
permutation of `0..3`. -/
theorem runTreeOps_leaf_coverage_witness :
    List.Perm
      (leafContents
        (Node.branch (0, 4) [true] ⟨0, 2⟩ (.leaf (0, 2) [true]) (.leaf (2, 2) [true]))
        [3, 1, 2, 0])
      (List.range 4) ∧
    contained (Node.branch (0, 4) [true] ⟨0, 2⟩ (.leaf (0, 2) [true]) (.leaf (2, 2) [true])) :=
  runTreeOps_leaf_coverage ⟨4, 1, fun _ => .ORDINAL, fun _ i => [5, 1, 3, 0].getD i 0⟩
    [.split [] ⟨0, 2⟩ false false, .split [false] ⟨0, 0⟩ false false, .orphan [false]]
    (Node.branch (0, 4) [true] ⟨0, 2⟩ (.leaf (0, 2) [true]) (.leaf (2, 2) [true]), [3, 1, 2, 0])
    (by decide)

/-- C7.  For every tree none of whose rules is over a categorical
variable, and every predictor row, `findBottomNode` returns the leaf
reached by descending right exactly when the node's `Rule.goesRight`
holds of the row.  `findBottomNode` itself always compares
`xt[variableIndex] > splitIndex` (`node.cpp` line 375), so for a
categorical rule it reads the bitmask as a signed threshold instead of
applying the membership test and the claimed equivalence fails (see the
counterexample); without categorical rules the two descents agree. -/
theorem findBottomNode_goesRight_descent (fit : BARTFit) (t : Node) (xt : Nat → Nat)
    (h : noCategoricalRules fit t = true) :
    t.findBottomNode fit xt = goesRightDescent fit t xt :=
  findBottomNode_eq_goesRightDescent fit t xt h

/-- Concrete refutation of the categorical part of the C7 sentence: at a
node whose rule is over a categorical variable (bitmask 1, observed
category 0), `goesRight` descends right but `findBottomNode` descends
left (`0 > 1` is false). -/
theorem findBottomNode_ignores_categorical :
    Node.findBottomNode
      (.branch (0, 1) [true] ⟨0, 1⟩ (.leaf (0, 1) [true]) (.leaf (0, 0) [true]))
      ⟨1, 1, fun _ => .CATEGORICAL, fun _ _ => 0⟩ (fun _ => 0) ≠
    goesRightDescent ⟨1, 1, fun _ => .CATEGORICAL, fun _ _ => 0⟩
      (.branch (0, 1) [true] ⟨0, 1⟩ (.leaf (0, 1) [true]) (.leaf (0, 0) [true]))
      (fun _ => 0) := by
  decide

/-- The C7 theorem applied to a concrete one-split ordinal tree: the
descent taken by `findBottomNode` (right, since `5 > 2`) matches the
goesRight descent. -/
theorem findBottomNode_goesRight_descent_witness :
    noCategoricalRules ⟨1, 1, fun _ => .ORDINAL, fun _ _ => 5⟩
      (.branch (0, 1) [true] ⟨0, 2⟩ (.leaf (0, 1) [true]) (.leaf (0, 0) [true])) = true ∧
    Node.findBottomNode
      (.branch (0, 1) [true] ⟨0, 2⟩ (.leaf (0, 1) [true]) (.leaf (0, 0) [true]))
      ⟨1, 1, fun _ => .ORDINAL, fun _ _ => 5⟩ (fun _ => 5) =
    goesRightDescent ⟨1, 1, fun _ => .ORDINAL, fun _ _ => 5⟩
      (.branch (0, 1) [true] ⟨0, 2⟩ (.leaf (0, 1) [true]) (.leaf (0, 0) [true]))
      (fun _ => 5) :=
  ⟨by decide, findBottomNode_goesRight_descent ⟨1, 1, fun _ => .ORDINAL, fun _ _ => 5⟩
    (.branch (0, 1) [true] ⟨0, 2⟩ (.leaf (0, 1) [true]) (.leaf (0, 0) [true]))
    (fun _ => 5) (by decide)⟩

/-- C9.  Calling `split` with a rule whose `variableIndex` is negative
(the invalid-rule sentinel) raises the error before any modification
takes place (`ext_throwError` at `node.cpp` line 779 precedes every
assignment), so the call produces no new state: the node keeps its leaf
state, children, rule storage, and observation slice exactly as they
were. -/
theorem split_invalid_rule_errors (fit : BARTFit) (isTop : Bool) (t : Node) (rule : Rule)
    (exL exR : Bool) (arr : List Nat) (h : rule.variableIndex < 0) :
    Node.split fit isTop t rule exL exR arr = none := by
  unfold Node.split
  rw [if_pos h]

/-- The C9 theorem applied to a concrete leaf and the sentinel rule
`variableIndex = -1`. -/
theorem split_invalid_rule_errors_witness :
    ((⟨-1, 0⟩ : Rule).variableIndex < 0) ∧
    Node.split ⟨1, 1, fun _ => .ORDINAL, fun _ _ => 0⟩ true (.leaf (0, 1) [true]) ⟨-1, 0⟩
      false false [0] = none :=
  ⟨by decide, split_invalid_rule_errors ⟨1, 1, fun _ => .ORDINAL, fun _ _ => 0⟩ true
    (.leaf (0, 1) [true]) ⟨-1, 0⟩ false false [0] (by decide)⟩

/-- C10.  Each node-counting query returns exactly the length of the
vector built by the corresponding traversal: `getNumBottomNodes` equals
the length of `getBottomVector`, and likewise for the not-bottom,
no-grand and swappable queries. -/
theorem node_counts_match_vectors (t : Node) :
    t.getNumBottomNodes = t.getBottomVector.length ∧
    t.getNumNotBottomNodes = t.getNotBottomVector.length ∧
    t.getNumNoGrandNodes = t.getNoGrandVector.length ∧
    t.getNumSwappableNodes = t.getSwappableVector.length :=
  ⟨getNumBottomNodes_eq_length t, getNumNotBottomNodes_eq_length t,
    getNumNoGrandNodes_eq_length t, getNumSwappableNodes_eq_length t⟩
